import Mathlib

/-!
# Reveal controller (`app/static/js/home.js`)

A shallow embedding of the scroll-reveal script: the page is a list of
elements, an element is named by its index in that list, and the script's
two entry points (the initialization body and the intersection callback)
are functions on an explicit state.  The state also carries the list of
calls the script has made on the host, in call order, so that ordering
properties ("the style is written before the class is added") can be stated.
-/

namespace Home

/-! ## JavaScript numbers produced by `parseInt` -/

/-- The Number values `parseInt` can return: `NaN`, an integer-valued double
with its sign (so that `-0` is distinguished), or an infinity. -/
inductive JSNumber where
  | nan
  | finite (negative : Bool) (magnitude : Nat)
  | infinity (negative : Bool)
deriving DecidableEq, Repr

/-- Number of binary digits of `m`, by repeated halving (`fuel` bounds the
number of halvings). -/
def bitLength : Nat → Nat → Nat
  | 0, _ => 0
  | fuel + 1, m => if m = 0 then 0 else bitLength fuel (m / 2) + 1

/-- The Number value of a non-negative mathematical integer: the nearest
double, ties to the even significand; `none` when the rounded value is
`2^1024` or more, that is, has more than 1024 binary digits (the Number is
infinite). -/
def roundToDouble (m : Nat) : Option Nat :=
  if m < 2 ^ 53 then some m
  else
    let e := bitLength m m - 53
    let q := m / 2 ^ e
    let r := m % 2 ^ e
    let half := 2 ^ (e - 1)
    let q' := if half < r ∨ (r = half ∧ q % 2 = 1) then q + 1 else q
    let v := q' * 2 ^ e
    if bitLength v v ≤ 1024 then some v else none

/-- StrWhiteSpaceChar: the WhiteSpace and LineTerminator code points that
`parseInt` strips from the start of its input. -/
def isStrWhiteSpaceChar (c : Char) : Bool :=
  let n := c.toNat
  n = 0x09 || n = 0x0A || n = 0x0B || n = 0x0C || n = 0x0D || n = 0x20 ||
  n = 0xA0 || n = 0x1680 || (0x2000 ≤ n && n ≤ 0x200A) || n = 0x2028 ||
  n = 0x2029 || n = 0x202F || n = 0x205F || n = 0x3000 || n = 0xFEFF

/-- A radix-10 digit: `0` (U+0030) to `9` (U+0039). -/
def isDecimalDigit (c : Char) : Bool :=
  0x30 ≤ c.toNat && c.toNat ≤ 0x39

/-- The mathematical integer denoted by a list of decimal digits, most
significant first, continuing from the value `acc` of the digits read so far. -/
def digitsValue : Nat → List Char → Nat
  | acc, [] => acc
  | acc, c :: cs => digitsValue (acc * 10 + (c.toNat - 0x30)) cs

/-- The call `parseInt(string, 10)`: strip leading white space, take an optional sign,
read the longest prefix of decimal digits; `NaN` when there is none. -/
def parseInt (string : String) : JSNumber :=
  let S := string.data.dropWhile isStrWhiteSpaceChar
  let negative := S.head? = some '-'
  let S := if S.head? = some '+' ∨ S.head? = some '-' then S.tail else S
  let Z := S.takeWhile isDecimalDigit
  if Z = [] then JSNumber.nan
  else
    let mathInt := digitsValue 0 Z
    if mathInt = 0 then JSNumber.finite negative 0
    else
      match roundToDouble mathInt with
      | some v => JSNumber.finite negative v
      | none => JSNumber.infinity negative

/-- ToBoolean on a Number: false for `NaN`, `+0` and `-0`. -/
def JSNumber.truthy : JSNumber → Bool
  | JSNumber.nan => false
  | JSNumber.finite _ m => m != 0
  | JSNumber.infinity _ => true

/-- Number of decimal digits of `x` (`fuel` bounds the number of divisions). -/
def decimalLength : Nat → Nat → Nat
  | 0, _ => 0
  | fuel + 1, x => if x < 10 then 1 else decimalLength fuel (x / 10) + 1

/-- The pairs `(s, n)` with `k` significant digits that denote the double `x`:
`10^(k-1) ≤ s < 10^k` and `s * 10^(n-k)` rounds to `x`.  Only the two
multiples of `10^(n-k)` around `x` can be nearest to it. -/
def digitCandidates (x k : Nat) : List (Nat × Nat) :=
  let D := decimalLength x x
  let around := fun (n : Nat) => [(x / 10 ^ (n - k), n), (x / 10 ^ (n - k) + 1, n)]
  (around D ++ around (D + 1)).filter fun c =>
    10 ^ (k - 1) ≤ c.1 && c.1 < 10 ^ k && roundToDouble (c.1 * 10 ^ (c.2 - k)) = some x

/-- Distance between the value a candidate denotes and `x`. -/
def candidateError (x k : Nat) (c : Nat × Nat) : Nat :=
  let v := c.1 * 10 ^ (c.2 - k)
  if v < x then x - v else v - x

/-- Of a list of candidates, the one whose value is closest to `x`; of two
equally close, the one with even `s`. -/
def closestCandidate (x k : Nat) : List (Nat × Nat) → Option (Nat × Nat)
  | [] => none
  | c :: cs =>
    match closestCandidate x k cs with
    | none => some c
    | some d =>
      if candidateError x k c < candidateError x k d then some c
      else if candidateError x k d < candidateError x k c then some d
      else if c.1 % 2 = 0 then some c else some d

/-- Search `k = k0, k0 + 1, ...` for the least number of significant digits
that has a candidate, and return `(s, n, k)` there. -/
def shortestDigits (x : Nat) : Nat → Nat → Option (Nat × Nat × Nat)
  | 0, _ => none
  | fuel + 1, k =>
    match closestCandidate x k (digitCandidates x k) with
    | some c => some (c.1, c.2, k)
    | none => shortestDigits x fuel (k + 1)

/-- Number::toString on a positive integer-valued double `x`: with `(s, n, k)`
the shortest digits, the decimal numeral of `s * 10^(n-k)` (the digits of `s`
followed by `n - k` zeros) when `n ≤ 21`, else exponent notation.  The search
ends at the latest at `k` the number of digits of `x`, with `s = x`; the
`none` branch is that case. -/
def positiveToString (x : Nat) : String :=
  match shortestDigits x (decimalLength x x) 1 with
  | none => Nat.repr x
  | some (s, n, k) =>
    if n ≤ 21 then Nat.repr (s * 10 ^ (n - k))
    else
      let digits := Nat.toDigits 10 s
      let mantissa :=
        if k = 1 then digits else digits.take 1 ++ '.' :: digits.drop 1
      String.mk mantissa ++ "e+" ++ Nat.repr (n - 1)

/-- ToString on a Number, as the template literal applies it. -/
def JSNumber.toJSString : JSNumber → String
  | JSNumber.nan => "NaN"
  | JSNumber.infinity false => "Infinity"
  | JSNumber.infinity true => "-Infinity"
  | JSNumber.finite negative m =>
    if m = 0 then "0"
    else if negative then "-" ++ positiveToString m else positiveToString m

/-! ## The page, the watchers and the calls made on the host -/

/-- A page element, as far as the script reads or writes it. -/
structure Element where
  /-- The tokens of `classList`, in order -/
  classList : List String
  /-- The value of `getAttribute('data-delay')`; `none` is `null` -/
  dataDelay : Option String
  /-- The inline `style.transitionDelay`; the empty string when not set -/
  transitionDelay : String
deriving DecidableEq, Repr

/-- An `IntersectionObserver` instance: its options and the elements it
observes (indices into the page), in registration order. -/
structure Watcher where
  /-- The `threshold` option, in hundredths -/
  thresholdPercent : Nat
  /-- The `rootMargin` option -/
  rootMargin : String
  /-- The observation targets -/
  targets : List Nat
deriving DecidableEq, Repr

/-- A call of the script on the host.  Elements and watchers are named by
index. -/
inductive Effect where
  | construct (io : Nat)
  | observe (io : Nat) (el : Nat)
  | unobserve (io : Nat) (el : Nat)
  | setTransitionDelay (el : Nat) (value : String)
  | classListAdd (el : Nat) (token : String)
deriving DecidableEq, Repr

/-- The host state the script runs against. -/
structure State where
  /-- Whether `'IntersectionObserver' in window` holds -/
  hasIntersectionObserver : Bool
  /-- The elements of the document, in tree order -/
  elements : List Element
  /-- Every watcher constructed so far, in construction order -/
  watchers : List Watcher
  /-- Every call the script has made, oldest first -/
  log : List Effect
deriving DecidableEq, Repr

/-- An `IntersectionObserverEntry`, as far as the callback reads it. -/
structure Entry where
  target : Nat
  isIntersecting : Bool
deriving DecidableEq, Repr

/-- A thrown JavaScript error. -/
inductive JSError where
  | referenceError (name : String)
deriving DecidableEq, Repr

/-- Replace the element at index `i` by its image under `f`; an index outside
the list names no element and nothing changes. -/
def modifyAt {α : Type} (f : α → α) : Nat → List α → List α
  | _, [] => []
  | 0, a :: as => f a :: as
  | i + 1, a :: as => a :: modifyAt f i as

/-- The method `DOMTokenList.add(token)`: append the token unless it is present. -/
def tokenListAdd (token : String) (tokens : List String) : List String :=
  if token ∈ tokens then tokens else tokens ++ [token]

/-- Whether `classList` of an element contains a token. -/
def Element.hasClass (el : Element) (token : String) : Bool :=
  decide (token ∈ el.classList)

/-- The call `document.querySelectorAll('.' + cls)`: the indices of the
elements whose class list contains `cls`, in document order. -/
def querySelectorAllClass (cls : String) (doc : List Element) : List Nat :=
  (List.range doc.length).filter fun i =>
    match doc[i]? with
    | some el => el.hasClass cls
    | none => false

/-- The call `el.classList.add(token)`. -/
def State.classListAdd (s : State) (el : Nat) (token : String) : State :=
  { s with
    elements := modifyAt (fun e => { e with classList := tokenListAdd token e.classList })
      el s.elements
    log := s.log ++ [Effect.classListAdd el token] }

/-- The assignment `el.style.transitionDelay = value`.  The state keeps the
string assigned; how the host reads it as a CSS time is outside the script. -/
def State.setTransitionDelay (s : State) (el : Nat) (value : String) : State :=
  { s with
    elements := modifyAt (fun e => { e with transitionDelay := value }) el s.elements
    log := s.log ++ [Effect.setTransitionDelay el value] }

/-- The call `el.getAttribute('data-delay')`. -/
def State.getDataDelay (s : State) (el : Nat) : Option String :=
  match s.elements[el]? with
  | some e => e.dataDelay
  | none => none

/-- The call `io.observe(el)`: add the element to the watcher's targets unless
it is already one. -/
def State.observe (s : State) (io : Nat) (el : Nat) : State :=
  { s with
    watchers := modifyAt
      (fun w => { w with targets := if el ∈ w.targets then w.targets else w.targets ++ [el] })
      io s.watchers
    log := s.log ++ [Effect.observe io el] }

/-- The call `io.unobserve(el)`: remove the element from the watcher's targets. -/
def State.unobserve (s : State) (io : Nat) (el : Nat) : State :=
  { s with
    watchers := modifyAt
      (fun w => { w with targets := w.targets.filter fun t => t != el })
      io s.watchers
    log := s.log ++ [Effect.unobserve io el] }

/-- The construction `new IntersectionObserver(callback, options)` with
threshold 0.12 and root margin `0px 0px -5% 0px`: a ReferenceError when the
host has no such constructor, else a new watcher with no targets; returns the
index that names it. -/
def State.newIntersectionObserver (s : State) : Except JSError (Nat × State) :=
  if s.hasIntersectionObserver then
    Except.ok (s.watchers.length,
      { s with
        watchers := s.watchers ++
          [{ thresholdPercent := 12, rootMargin := "0px 0px -5% 0px", targets := [] }]
        log := s.log ++ [Effect.construct s.watchers.length] })
  else
    Except.error (JSError.referenceError "IntersectionObserver")

/-- The value of `x || '0'` for `x` a string or `null`. -/
def orZero : Option String → String
  | none => "0"
  | some a => if a = "" then "0" else a

/-- The `delay` constant of the callback. -/
def delayOf (s : State) (el : Nat) : JSNumber :=
  parseInt (orZero (s.getDataDelay el))

/-- The body of `entries.forEach((e) => ...)` in the callback of watcher `io`. -/
def processEntry (io : Nat) (s : State) (e : Entry) : State :=
  if e.isIntersecting then
    let delay := delayOf s e.target
    let s1 :=
      if delay.truthy then s.setTransitionDelay e.target (delay.toJSString ++ "ms") else s
    let s2 := s1.classListAdd e.target "in"
    s2.unobserve io e.target
  else s

/-- The intersection callback of watcher `io`, on one batch of entries. -/
def callback (io : Nat) (entries : List Entry) (s : State) : State :=
  entries.foldl (processEntry io) s

/-- The body of the immediately invoked function. -/
def init (s : State) : Except JSError State :=
  let els := querySelectorAllClass "reveal" s.elements
  if !s.hasIntersectionObserver || els.length == 0 then
    Except.ok (els.foldl (fun st el => st.classListAdd el "in") s)
  else
    match s.newIntersectionObserver with
    | Except.error err => Except.error err
    | Except.ok (io, s1) => Except.ok (els.foldl (fun st el => st.observe io el) s1)

/-- An invocation of the script: a run of the initialization body, or a
delivery of a batch of entries to the callback of watcher `io`. -/
inductive Op where
  | init
  | callback (io : Nat) (entries : List Entry)
deriving DecidableEq, Repr

/-- Run one invocation. -/
def step (s : State) : Op → Except JSError State
  | Op.init => init s
  | Op.callback io entries => Except.ok (callback io entries s)

/-- Run a sequence of invocations, stopping at the first thrown error. -/
def run : List Op → State → Except JSError State
  | [], s => Except.ok s
  | op :: ops, s =>
    match step s op with
    | Except.error err => Except.error err
    | Except.ok s1 => run ops s1

/-- The state of a freshly loaded page: the given elements, no watcher, no
call made yet. -/
def load (supported : Bool) (doc : List Element) : State :=
  { hasIntersectionObserver := supported, elements := doc, watchers := [], log := [] }

/-- The elements a watcher observes; none for an index that names no watcher. -/
def State.observed (s : State) (io : Nat) : List Nat :=
  match s.watchers[io]? with
  | some w => w.targets
  | none => []

/-- Whether element `el` carries the class `in`. -/
def State.revealed (s : State) (el : Nat) : Bool :=
  match s.elements[el]? with
  | some e => e.hasClass "in"
  | none => false

/-- The inline transition delay of element `el`. -/
def State.transitionDelayOf (s : State) (el : Nat) : Option String :=
  (s.elements[el]?).map Element.transitionDelay

/-- The class list of element `el`. -/
def State.classListOf (s : State) (el : Nat) : Option (List String) :=
  (s.elements[el]?).map Element.classList

/-- Whether a call writes the transition delay of some element. -/
def Effect.isStyleWrite : Effect → Bool
  | Effect.setTransitionDelay _ _ => true
  | _ => false

/-- Whether a call constructs a watcher or registers an observation. -/
def Effect.isObservationSetup : Effect → Bool
  | Effect.construct _ => true
  | Effect.observe _ _ => true
  | _ => false

/-- The batches of entries delivered to callbacks, each with the watcher it
is delivered to, run in order. -/
def deliver (batches : List (Nat × List Entry)) (s : State) : State :=
  batches.foldl (fun st b => callback b.1 b.2 st) s

/-- What one intersecting report makes of its target: the transition delay
written when the parsed delay is truthy, and the class `in` added. -/
def revealElement (el : Element) : Element :=
  { el with
    transitionDelay :=
      if (parseInt (orZero el.dataDelay)).truthy then
        (parseInt (orZero el.dataDelay)).toJSString ++ "ms"
      else el.transitionDelay
    classList := tokenListAdd "in" el.classList }

/-- The targets of the intersecting entries of a batch. -/
def intersectingTargets (entries : List Entry) : List Nat :=
  (entries.filter fun e => e.isIntersecting).map Entry.target

/-! ## Sample pages -/

/-- A matched element with `data-delay="300"`. -/
def delayedCard : Element :=
  { classList := ["card", "reveal"], dataDelay := some "300", transitionDelay := "" }

/-- A matched element with no `data-delay`. -/
def plainCard : Element :=
  { classList := ["reveal"], dataDelay := none, transitionDelay := "" }

/-- A matched element with `data-delay="abc"`. -/
def malformedCard : Element :=
  { classList := ["reveal"], dataDelay := some "abc", transitionDelay := "" }

/-- An element that does not match `.reveal`. -/
def footer : Element :=
  { classList := ["footer"], dataDelay := some "abc", transitionDelay := "" }

/-- The state initialization leaves on a page that holds `delayedCard` alone:
one watcher, observing it. -/
def watchedCard : State :=
  { hasIntersectionObserver := true
    elements := [delayedCard]
    watchers := [{ thresholdPercent := 12, rootMargin := "0px 0px -5% 0px", targets := [0] }]
    log := [Effect.construct 0, Effect.observe 0 0] }

/-- A matched element whose `data-delay` is `2^53 + 1`. -/
def hugeDelayCard : Element :=
  { classList := ["reveal"], dataDelay := some "9007199254740993", transitionDelay := "" }

/-- A matched element with `data-delay="-5"`. -/
def negativeDelayCard : Element :=
  { classList := ["reveal"], dataDelay := some "-5", transitionDelay := "" }

/-- Whether a string has a leading integer: after leading white space and one
optional sign it continues with a decimal digit. -/
def hasLeadingInteger (a : String) : Bool :=
  let rest := a.data.dropWhile isStrWhiteSpaceChar
  let rest := if rest.head? = some '+' ∨ rest.head? = some '-' then rest.tail else rest
  match rest.head? with
  | some c => isDecimalDigit c
  | none => false

/-- A matched element with `data-delay="12abc"`. -/
def trailingTextCard : Element :=
  { classList := ["reveal"], dataDelay := some "12abc", transitionDelay := "" }

/-- A matched element whose `data-delay` is a run of 310 nines. -/
def longDelayCard : Element :=
  { classList := ["reveal"], dataDelay := some (String.mk (List.replicate 310 '9')),
    transitionDelay := "" }

/-- Whether the first character of a string after leading white space is the
minus sign. -/
def hasLeadingMinus (a : String) : Bool :=
  decide ((a.data.dropWhile isStrWhiteSpaceChar).head? = some '-')

/-- The comparison `x > 0` on a Number. -/
def JSNumber.greaterThanZero : JSNumber → Bool
  | JSNumber.nan => false
  | JSNumber.finite negative m => !negative && m != 0
  | JSNumber.infinity negative => !negative

/-- The run of decimal digits `parseInt` reads: what follows the leading white
space and the optional sign, up to the first character that is not a digit. -/
def digitRun (a : String) : List Char :=
  let S := a.data.dropWhile isStrWhiteSpaceChar
  (if S.head? = some '+' ∨ S.head? = some '-' then S.tail else S).takeWhile isDecimalDigit

/-! ## Lists modified at an index -/

theorem modifyAt_length {α : Type} (f : α → α) (i : Nat) (l : List α) :
    (modifyAt f i l).length = l.length := by
  induction l generalizing i with
  | nil => cases i <;> rfl
  | cons a as ih =>
    cases i with
    | zero => rfl
    | succ i => simp [modifyAt, ih]

theorem modifyAt_getElem? {α : Type} (f : α → α) (i j : Nat) (l : List α) :
    (modifyAt f i l)[j]? = if j = i then (l[j]?).map f else l[j]? := by
  induction l generalizing i j with
  | nil => cases i <;> simp [modifyAt]
  | cons a as ih =>
    cases i with
    | zero =>
      cases j with
      | zero => simp [modifyAt]
      | succ j => simp [modifyAt]
    | succ i =>
      cases j with
      | zero => simp [modifyAt]
      | succ j => simp [modifyAt, ih]

theorem modifyAt_modifyAt {α : Type} (f g : α → α) (i : Nat) (l : List α) :
    modifyAt g i (modifyAt f i l) = modifyAt (fun a => g (f a)) i l := by
  induction l generalizing i with
  | nil => cases i <;> rfl
  | cons a as ih =>
    cases i with
    | zero => rfl
    | succ i => simp [modifyAt, ih]

theorem modifyAt_congr {α : Type} (f g : α → α) (i : Nat) (l : List α)
    (h : ∀ a, l[i]? = some a → f a = g a) : modifyAt f i l = modifyAt g i l := by
  induction l generalizing i with
  | nil => cases i <;> rfl
  | cons a as ih =>
    cases i with
    | zero => simp [modifyAt, h a]
    | succ i =>
      simp only [modifyAt, List.cons.injEq, true_and]
      exact ih i (fun b hb => h b (by simpa using hb))

theorem modifyAt_id {α : Type} (f : α → α) (i : Nat) (l : List α)
    (h : ∀ a, l[i]? = some a → f a = a) : modifyAt f i l = l := by
  induction l generalizing i with
  | nil => cases i <;> rfl
  | cons a as ih =>
    cases i with
    | zero => simp [modifyAt, h a]
    | succ i =>
      simp only [modifyAt, List.cons.injEq, true_and]
      exact ih i (fun b hb => h b (by simpa using hb))

/-! ## What one entry does to each part of the state -/

theorem processEntry_not_intersecting (io : Nat) (s : State) (e : Entry)
    (h : e.isIntersecting = false) : processEntry io s e = s := by
  simp [processEntry, h]

theorem processEntry_hasIntersectionObserver (io : Nat) (s : State) (e : Entry) :
    (processEntry io s e).hasIntersectionObserver = s.hasIntersectionObserver := by
  unfold processEntry
  by_cases h : e.isIntersecting <;> simp only [h, if_true, if_false, Bool.false_eq_true]
  by_cases hd : (delayOf s e.target).truthy <;>
    simp [hd, State.unobserve, State.classListAdd, State.setTransitionDelay]

theorem processEntry_elements (io : Nat) (s : State) (e : Entry) :
    (processEntry io s e).elements =
      if e.isIntersecting then modifyAt revealElement e.target s.elements else s.elements := by
  unfold processEntry
  by_cases h : e.isIntersecting <;> simp only [h, if_true, if_false, Bool.false_eq_true]
  by_cases hd : (delayOf s e.target).truthy
  · simp only [hd, if_true, State.unobserve, State.classListAdd, State.setTransitionDelay,
      modifyAt_modifyAt]
    apply modifyAt_congr
    intro a ha
    have hdel : delayOf s e.target = parseInt (orZero a.dataDelay) := by
      simp [delayOf, State.getDataDelay, ha]
    rw [hdel] at hd
    simp [revealElement, hd, hdel]
  · simp only [hd, if_false, State.unobserve, State.classListAdd, Bool.false_eq_true]
    apply modifyAt_congr
    intro a ha
    have hdel : delayOf s e.target = parseInt (orZero a.dataDelay) := by
      simp [delayOf, State.getDataDelay, ha]
    rw [hdel] at hd
    simp [revealElement, hd]

theorem processEntry_watchers (io : Nat) (s : State) (e : Entry) :
    (processEntry io s e).watchers =
      if e.isIntersecting then
        modifyAt (fun w => { w with targets := w.targets.filter fun t => t != e.target })
          io s.watchers
      else s.watchers := by
  unfold processEntry
  by_cases h : e.isIntersecting <;> simp only [h, if_true, if_false, Bool.false_eq_true]
  by_cases hd : (delayOf s e.target).truthy <;>
    simp [hd, State.unobserve, State.classListAdd, State.setTransitionDelay]

theorem processEntry_log (io : Nat) (s : State) (e : Entry) :
    (processEntry io s e).log =
      if e.isIntersecting then
        s.log ++
          ((if (delayOf s e.target).truthy then
              [Effect.setTransitionDelay e.target ((delayOf s e.target).toJSString ++ "ms")]
            else []) ++
            [Effect.classListAdd e.target "in", Effect.unobserve io e.target])
      else s.log := by
  unfold processEntry
  by_cases h : e.isIntersecting <;> simp only [h, if_true, if_false, Bool.false_eq_true]
  by_cases hd : (delayOf s e.target).truthy <;>
    simp [hd, State.unobserve, State.classListAdd, State.setTransitionDelay]

/-! ## What a batch does to each part of the state -/

theorem tokenListAdd_mem (token : String) (tokens : List String) :
    token ∈ tokenListAdd token tokens := by
  unfold tokenListAdd
  by_cases h : token ∈ tokens <;> simp [h]

theorem tokenListAdd_mono (token t : String) (tokens : List String) (h : t ∈ tokens) :
    t ∈ tokenListAdd token tokens := by
  unfold tokenListAdd
  by_cases h1 : token ∈ tokens <;> simp [h1, h]

theorem tokenListAdd_of_mem (token : String) (tokens : List String) (h : token ∈ tokens) :
    tokenListAdd token tokens = tokens := by
  simp [tokenListAdd, h]

theorem revealElement_idem (el : Element) :
    revealElement (revealElement el) = revealElement el := by
  by_cases hd : (parseInt (orZero el.dataDelay)).truthy <;>
    simp [revealElement, hd, tokenListAdd_of_mem _ _ (tokenListAdd_mem "in" el.classList)]

theorem intersectingTargets_cons (e : Entry) (es : List Entry) :
    intersectingTargets (e :: es) =
      if e.isIntersecting then e.target :: intersectingTargets es
      else intersectingTargets es := by
  by_cases h : e.isIntersecting <;> simp [intersectingTargets, List.filter_cons, h]

theorem callback_cons (io : Nat) (e : Entry) (es : List Entry) (s : State) :
    callback io (e :: es) s = callback io es (processEntry io s e) := rfl

theorem callback_hasIntersectionObserver (io : Nat) (entries : List Entry) (s : State) :
    (callback io entries s).hasIntersectionObserver = s.hasIntersectionObserver := by
  induction entries generalizing s with
  | nil => rfl
  | cons e es ih => rw [callback_cons, ih, processEntry_hasIntersectionObserver]

theorem callback_elements_getElem? (io : Nat) (entries : List Entry) (s : State) (i : Nat) :
    (callback io entries s).elements[i]? =
      (s.elements[i]?).map fun el =>
        if i ∈ intersectingTargets entries then revealElement el else el := by
  induction entries generalizing s with
  | nil => simp [callback, intersectingTargets]
  | cons e es ih =>
    rw [callback_cons, ih, processEntry_elements, intersectingTargets_cons]
    by_cases h : e.isIntersecting
    · simp only [h, if_true, modifyAt_getElem?, List.mem_cons]
      by_cases hi : i = e.target
      · cases hel : s.elements[i]? with
        | none => simp [hi]
        | some el =>
          by_cases hm : i ∈ intersectingTargets es <;>
            simp [hi, hm, revealElement_idem]
      · simp [hi]
    · simp [h]

theorem callback_watchers_getElem? (io : Nat) (entries : List Entry) (s : State) (j : Nat) :
    (callback io entries s).watchers[j]? =
      (s.watchers[j]?).map fun w =>
        if j = io then
          { w with targets := w.targets.filter fun t => decide (t ∉ intersectingTargets entries) }
        else w := by
  induction entries generalizing s with
  | nil => simp [callback, intersectingTargets]
  | cons e es ih =>
    rw [callback_cons, ih, processEntry_watchers, intersectingTargets_cons]
    by_cases h : e.isIntersecting
    · simp only [h, if_true, modifyAt_getElem?, List.mem_cons]
      by_cases hj : j = io
      · cases hw : s.watchers[j]? with
        | none => simp [hj]
        | some w =>
          simp only [hj, if_true, Option.map_some', List.filter_filter]
          congr 2
          apply List.filter_congr
          intro t _
          by_cases h1 : t = e.target <;> simp [h1]
      · simp [hj]
    · simp [h]

theorem callback_elements_length (io : Nat) (entries : List Entry) (s : State) :
    (callback io entries s).elements.length = s.elements.length := by
  induction entries generalizing s with
  | nil => rfl
  | cons e es ih =>
    rw [callback_cons, ih, processEntry_elements]
    by_cases h : e.isIntersecting <;> simp [h, modifyAt_length]

theorem callback_watchers_length (io : Nat) (entries : List Entry) (s : State) :
    (callback io entries s).watchers.length = s.watchers.length := by
  induction entries generalizing s with
  | nil => rfl
  | cons e es ih =>
    rw [callback_cons, ih, processEntry_watchers]
    by_cases h : e.isIntersecting <;> simp [h, modifyAt_length]

theorem callback_revealed (io : Nat) (entries : List Entry) (s : State) (i : Nat) :
    (callback io entries s).revealed i =
      (s.revealed i ||
        (decide (i < s.elements.length) && decide (i ∈ intersectingTargets entries))) := by
  unfold State.revealed
  rw [callback_elements_getElem?]
  cases hel : s.elements[i]? with
  | none =>
    have : ¬ i < s.elements.length := by
      intro hlt
      rw [List.getElem?_eq_getElem hlt] at hel
      cases hel
    simp [this]
  | some el =>
    have hlt : i < s.elements.length := by
      by_contra hge
      rw [List.getElem?_eq_none (Nat.le_of_not_lt hge)] at hel
      cases hel
    by_cases hm : i ∈ intersectingTargets entries
    · simp [hm, hlt, Element.hasClass, revealElement, tokenListAdd_mem]
    · simp [hm]

theorem callback_observed (io j : Nat) (entries : List Entry) (s : State) :
    (callback io entries s).observed j =
      if j = io then (s.observed j).filter fun t => decide (t ∉ intersectingTargets entries)
      else s.observed j := by
  unfold State.observed
  rw [callback_watchers_getElem?]
  cases hw : s.watchers[j]? with
  | none => simp
  | some w => by_cases hj : j = io <;> simp [hj]

/-! ## Initialization -/

theorem modifyAt_append_length {α : Type} (f : α → α) (l : List α) (a : α) :
    modifyAt f l.length (l ++ [a]) = l ++ [f a] := by
  induction l with
  | nil => rfl
  | cons b bs ih => simp [modifyAt, ih]

theorem getElem?_append_two {α : Type} (l : List α) (a b : α) :
    (l ++ [a] ++ [b])[l.length]? = some a ∧ (l ++ [a] ++ [b])[l.length + 1]? = some b := by
  constructor
  · rw [List.append_assoc, List.getElem?_append_right (Nat.le_refl _)]
    simp
  · rw [List.append_assoc, List.getElem?_append_right (Nat.le_succ _)]
    simp

theorem querySelectorAllClass_nodup (cls : String) (doc : List Element) :
    (querySelectorAllClass cls doc).Nodup :=
  (List.nodup_range doc.length).filter _

theorem querySelectorAllClass_lt (cls : String) (doc : List Element) (i : Nat)
    (h : i ∈ querySelectorAllClass cls doc) : i < doc.length := by
  unfold querySelectorAllClass at h
  exact List.mem_range.mp (List.mem_filter.mp h).1

theorem foldl_addTarget (l ts : List Nat) (hl : l.Nodup) (hd : ∀ x ∈ l, x ∉ ts) :
    l.foldl (fun acc el => if el ∈ acc then acc else acc ++ [el]) ts = ts ++ l := by
  induction l generalizing ts with
  | nil => simp
  | cons a as ih =>
    have ha : a ∉ ts := hd a (List.mem_cons_self a as)
    simp only [List.foldl_cons, ha, if_false]
    rw [ih (ts ++ [a]) (List.nodup_cons.mp hl).2]
    · simp
    · intro x hx hmem
      rcases List.mem_append.mp hmem with h1 | h1
      · exact hd x (List.mem_cons_of_mem a hx) h1
      · have hxa : x = a := by simpa using h1
        exact (List.nodup_cons.mp hl).1 (hxa ▸ hx)

theorem foldl_observe (io : Nat) (l : List Nat) (s : State) :
    l.foldl (fun st el => st.observe io el) s =
      { s with
        watchers := modifyAt
          (fun w => { w with
            targets := l.foldl (fun acc el => if el ∈ acc then acc else acc ++ [el]) w.targets })
          io s.watchers
        log := s.log ++ l.map (Effect.observe io) } := by
  induction l generalizing s with
  | nil =>
    simp only [List.foldl_nil, List.map_nil, List.append_nil]
    rw [modifyAt_id _ _ _ (fun _ _ => rfl)]
  | cons a as ih =>
    rw [List.foldl_cons, ih]
    simp [State.observe, modifyAt_modifyAt]

theorem foldl_classListAdd (token : String) (l : List Nat) (s : State) :
    let s1 := l.foldl (fun st el => st.classListAdd el token) s
    s1.hasIntersectionObserver = s.hasIntersectionObserver ∧
    s1.watchers = s.watchers ∧
    s1.log = s.log ++ l.map (fun el => Effect.classListAdd el token) ∧
    ∀ i, s1.elements[i]? = (s.elements[i]?).map fun el =>
      if i ∈ l then { el with classList := tokenListAdd token el.classList } else el := by
  induction l generalizing s with
  | nil => simp
  | cons a as ih =>
    obtain ⟨h1, h2, h3, h4⟩ := ih (s.classListAdd a token)
    refine ⟨by simpa [State.classListAdd] using h1, by simpa [State.classListAdd] using h2,
      by simpa [State.classListAdd] using h3, ?_⟩
    intro i
    have h5 := h4 i
    simp only [List.foldl_cons]
    rw [h5]
    simp only [State.classListAdd, modifyAt_getElem?, List.mem_cons]
    by_cases hi : i = a
    · cases hel : s.elements[i]? with
      | none => simp [hi]
      | some el =>
        by_cases hm : i ∈ as <;>
          simp [hi, hm, tokenListAdd_of_mem _ _ (tokenListAdd_mem token el.classList)]
    · simp [hi]

/-- With no watcher support, or nothing matched, initialization is the
fallback loop. -/
theorem init_fallback (s : State)
    (h : s.hasIntersectionObserver = false ∨ querySelectorAllClass "reveal" s.elements = []) :
    init s = Except.ok ((querySelectorAllClass "reveal" s.elements).foldl
      (fun st el => st.classListAdd el "in") s) := by
  unfold init
  rcases h with h | h
  · simp [h]
  · simp [h]

/-- With watcher support and a match, initialization appends one watcher that
observes exactly the matched elements. -/
theorem init_observing (s : State) (hio : s.hasIntersectionObserver = true)
    (hne : querySelectorAllClass "reveal" s.elements ≠ []) :
    init s = Except.ok
      { s with
        watchers := s.watchers ++
          [{ thresholdPercent := 12, rootMargin := "0px 0px -5% 0px",
             targets := querySelectorAllClass "reveal" s.elements }]
        log := s.log ++ Effect.construct s.watchers.length ::
          (querySelectorAllClass "reveal" s.elements).map (Effect.observe s.watchers.length) } := by
  unfold init
  have hlen : ((querySelectorAllClass "reveal" s.elements).length == 0) = false := by
    cases hq : querySelectorAllClass "reveal" s.elements with
    | nil => exact absurd hq hne
    | cons a as => rfl
  simp only [hio, hlen, Bool.not_true, Bool.or_self, Bool.false_eq_true, if_false,
    State.newIntersectionObserver, if_true]
  rw [foldl_observe]
  simp only [modifyAt_append_length]
  rw [foldl_addTarget _ _ (querySelectorAllClass_nodup _ _) (by simp)]
  simp

theorem init_total (s : State) : ∃ s1, init s = Except.ok s1 := by
  by_cases h : s.hasIntersectionObserver = false ∨ querySelectorAllClass "reveal" s.elements = []
  · exact ⟨_, init_fallback s h⟩
  · have h1 : s.hasIntersectionObserver = true := by
      cases hb : s.hasIntersectionObserver with
      | false => exact absurd (Or.inl hb) h
      | true => rfl
    exact ⟨_, init_observing s h1 (fun hq => h (Or.inr hq))⟩

theorem init_revealed_mono (s s1 : State) (h : init s = Except.ok s1) (i : Nat)
    (hr : s.revealed i = true) : s1.revealed i = true := by
  by_cases hf : s.hasIntersectionObserver = false ∨ querySelectorAllClass "reveal" s.elements = []
  · rw [init_fallback s hf] at h
    injection h with h
    subst h
    obtain ⟨_, _, _, h4⟩ :=
      foldl_classListAdd "in" (querySelectorAllClass "reveal" s.elements) s
    unfold State.revealed at hr ⊢
    rw [h4 i]
    cases hel : s.elements[i]? with
    | none => simp [hel] at hr
    | some el =>
      simp only [hel, Element.hasClass, decide_eq_true_eq] at hr
      by_cases hm : i ∈ querySelectorAllClass "reveal" s.elements
      · simp [hm, Element.hasClass, tokenListAdd_mem]
      · simp [hm, Element.hasClass, hr]
  · have h1 : s.hasIntersectionObserver = true := by
      cases hb : s.hasIntersectionObserver with
      | false => exact absurd (Or.inl hb) hf
      | true => rfl
    rw [init_observing s h1 (fun hq => hf (Or.inr hq))] at h
    injection h with h
    subst h
    exact hr

theorem step_total (s : State) (op : Op) : ∃ s1, step s op = Except.ok s1 := by
  cases op with
  | init => exact init_total s
  | callback io entries => exact ⟨_, rfl⟩

theorem step_revealed_mono (s s1 : State) (op : Op) (h : step s op = Except.ok s1) (i : Nat)
    (hr : s.revealed i = true) : s1.revealed i = true := by
  cases op with
  | init => exact init_revealed_mono s s1 h i hr
  | callback io entries =>
    simp only [step] at h
    injection h with h
    subst h
    rw [callback_revealed, hr]
    rfl

theorem run_cons_ok (s s1 : State) (op : Op) (ops : List Op) (h : step s op = Except.ok s1) :
    run (op :: ops) s = run ops s1 := by
  simp only [run, h]

theorem callback_append (io : Nat) (xs ys : List Entry) (s : State) :
    callback io (xs ++ ys) s = callback io ys (callback io xs s) := by
  simp [callback, List.foldl_append]

/-! ## Sequences of batches -/

theorem deliver_cons (b : Nat × List Entry) (bs : List (Nat × List Entry)) (s : State) :
    deliver (b :: bs) s = deliver bs (callback b.1 b.2 s) := rfl

theorem deliver_append (xs ys : List (Nat × List Entry)) (s : State) :
    deliver (xs ++ ys) s = deliver ys (deliver xs s) := by
  simp [deliver, List.foldl_append]

theorem deliver_elements_length (bs : List (Nat × List Entry)) (s : State) :
    (deliver bs s).elements.length = s.elements.length := by
  induction bs generalizing s with
  | nil => rfl
  | cons b bs ih => rw [deliver_cons, ih, callback_elements_length]

theorem deliver_observed_subset (bs : List (Nat × List Entry)) (s : State) (j i : Nat)
    (h : i ∈ (deliver bs s).observed j) : i ∈ s.observed j := by
  induction bs generalizing s with
  | nil => exact h
  | cons b bs ih =>
    have h1 := ih (callback b.1 b.2 s) h
    rw [callback_observed] at h1
    by_cases hj : j = b.1
    · rw [if_pos hj] at h1
      exact (List.mem_filter.mp h1).1
    · rw [if_neg hj] at h1
      exact h1

theorem deliver_elements_settled (bs : List (Nat × List Entry)) (s : State) (t : Nat)
    (h : ∀ el, s.elements[t]? = some el → revealElement el = el) :
    (deliver bs s).elements[t]? = s.elements[t]? := by
  induction bs generalizing s with
  | nil => rfl
  | cons b bs ih =>
    have hstep : (callback b.1 b.2 s).elements[t]? = s.elements[t]? := by
      rw [callback_elements_getElem?]
      cases hel : s.elements[t]? with
      | none => rfl
      | some el =>
        by_cases hm : t ∈ intersectingTargets b.2 <;> simp [hm, h el hel]
    rw [deliver_cons, ih, hstep]
    intro el hel
    exact h el (hstep ▸ hel)

theorem processEntry_eq_callback (io : Nat) (s : State) (e : Entry) :
    processEntry io s e = callback io [e] s := rfl

theorem not_mem_observed_after_report (io : Nat) (s : State) (t : Nat) :
    t ∉ (processEntry io s { target := t, isIntersecting := true }).observed io := by
  rw [processEntry_eq_callback, callback_observed]
  simp [intersectingTargets]

theorem elements_after_report (io : Nat) (s : State) (t i : Nat) :
    (processEntry io s { target := t, isIntersecting := true }).elements[i]? =
      (s.elements[i]?).map fun el => if i = t then revealElement el else el := by
  rw [processEntry_eq_callback, callback_elements_getElem?]
  simp [intersectingTargets]

theorem report_settled (io : Nat) (s : State) (t : Nat)
    (hel : ∀ el, s.elements[t]? = some el → revealElement el = el)
    (hw : t ∉ s.observed io) :
    (processEntry io s { target := t, isIntersecting := true }).elements = s.elements ∧
    (processEntry io s { target := t, isIntersecting := true }).watchers = s.watchers := by
  constructor
  · rw [processEntry_elements]
    simp only [if_true]
    exact modifyAt_id _ _ _ hel
  · rw [processEntry_watchers]
    simp only [if_true]
    apply modifyAt_id
    intro w hws
    have hmem : t ∉ w.targets := by
      simpa [State.observed, hws] using hw
    have hfilter : w.targets.filter (fun x => x != t) = w.targets := by
      apply List.filter_eq_self.mpr
      intro a ha
      have hne : a ≠ t := fun h => hmem (h ▸ ha)
      simpa using hne
    rw [hfilter]

theorem getDataDelay_eq_of_elements (s1 s2 : State) (t : Nat)
    (h : (s1.elements[t]?).map Element.dataDelay = (s2.elements[t]?).map Element.dataDelay) :
    s1.getDataDelay t = s2.getDataDelay t := by
  unfold State.getDataDelay
  cases h1 : s1.elements[t]? <;> cases h2 : s2.elements[t]? <;> simp_all

theorem revealed_of_elements_eq (s1 s2 : State) (h : s1.elements = s2.elements) (i : Nat) :
    s1.revealed i = s2.revealed i := by
  unfold State.revealed
  rw [h]

/-- A callback batch keeps the equation between the observed set of watcher
`io` and the unrevealed members of a fixed list of elements of the page. -/
theorem callback_keeps_observed_eq (io : Nat) (entries : List Entry) (s : State)
    (els : List Nat) (hlt : ∀ i ∈ els, i < s.elements.length)
    (hinv : s.observed io = els.filter fun i => !s.revealed i) :
    (callback io entries s).observed io =
      els.filter fun i => !(callback io entries s).revealed i := by
  rw [callback_observed, if_pos rfl, hinv, List.filter_filter]
  apply List.filter_congr
  intro i hi
  rw [callback_revealed]
  have := hlt i hi
  by_cases hm : i ∈ intersectingTargets entries <;> cases s.revealed i <;> simp [hm, this]

theorem deliver_keeps_observed_eq (io : Nat) (batches : List (List Entry)) (s : State)
    (els : List Nat) (hlt : ∀ i ∈ els, i < s.elements.length)
    (hinv : s.observed io = els.filter fun i => !s.revealed i) :
    (deliver (batches.map fun b => (io, b)) s).observed io =
      els.filter fun i => !(deliver (batches.map fun b => (io, b)) s).revealed i := by
  induction batches generalizing s with
  | nil => exact hinv
  | cons b bs ih =>
    simp only [List.map_cons, deliver_cons]
    apply ih
    · intro i hi
      rw [callback_elements_length]
      exact hlt i hi
    · exact callback_keeps_observed_eq io b s els hlt hinv

/-! ## Numbers -/

theorem bitLength_zero (fuel : Nat) : bitLength fuel 0 = 0 := by
  cases fuel <;> simp [bitLength]

theorem bitLength_spec (fuel m : Nat) (hle : m ≤ fuel) (hpos : 0 < m) :
    2 ^ (bitLength fuel m - 1) ≤ m ∧ m < 2 ^ bitLength fuel m := by
  induction fuel generalizing m with
  | zero => omega
  | succ fuel ih =>
    have hm : m ≠ 0 := by omega
    simp only [bitLength, hm, if_false]
    by_cases h2 : m / 2 = 0
    · have h1 : m = 1 := by omega
      subst h1
      simp [bitLength_zero]
    · obtain ⟨ha, hb⟩ := ih (m / 2) (by omega) (by omega)
      have hL : 0 < bitLength fuel (m / 2) := by
        by_contra h0
        have h00 : bitLength fuel (m / 2) = 0 := by omega
        rw [h00] at hb
        simp at hb
        omega
      constructor
      · simp only [Nat.add_sub_cancel]
        have hpow : 2 ^ bitLength fuel (m / 2) = 2 ^ (bitLength fuel (m / 2) - 1) * 2 := by
          rw [← Nat.pow_succ]
          congr 1
          omega
        omega
      · rw [Nat.pow_succ]
        omega

theorem roundToDouble_of_lt (m : Nat) (h : m < 2 ^ 53) : roundToDouble m = some m := by
  unfold roundToDouble
  rw [if_pos h]

theorem roundToDouble_ge (m x : Nat) (hm : 2 ^ 53 ≤ m) (h : roundToDouble m = some x) :
    2 ^ 53 ≤ x := by
  obtain ⟨ha, hb⟩ := bitLength_spec m m (Nat.le_refl m) (by omega)
  unfold roundToDouble at h
  have hnot : ¬ m < 2 ^ 53 := by omega
  rw [if_neg hnot] at h
  generalize bitLength m m = L at ha hb h
  have hL : 53 < L := by
    have h53 : 2 ^ 53 < 2 ^ L := Nat.lt_of_le_of_lt hm hb
    exact (Nat.pow_lt_pow_iff_right (by decide)).mp h53
  have hsplit : 2 ^ (L - 1) = 2 ^ 52 * 2 ^ (L - 53) := by
    rw [← Nat.pow_add]
    congr 1
    omega
  have hq : 2 ^ 52 ≤ m / 2 ^ (L - 53) := by
    rw [Nat.le_div_iff_mul_le (by positivity)]
    rw [← hsplit]
    exact ha
  have he : 2 ≤ 2 ^ (L - 53) := by
    have h1 : 2 ^ 1 ≤ 2 ^ (L - 53) := Nat.pow_le_pow_right (by decide) (by omega)
    simpa using h1
  have hbound : ∀ q', m / 2 ^ (L - 53) ≤ q' → 2 ^ 53 ≤ q' * 2 ^ (L - 53) := by
    intro q' hq'
    calc 2 ^ 53 = 2 ^ 52 * 2 := by norm_num
      _ ≤ q' * 2 ^ (L - 53) := Nat.mul_le_mul (Nat.le_trans hq hq') he
  simp only [] at h
  split at h <;> split at h
  · injection h with h
    rw [← h]
    exact hbound _ (Nat.le_succ _)
  · simp at h
  · injection h with h
    rw [← h]
    exact hbound _ (Nat.le_refl _)
  · simp at h

theorem roundToDouble_eq_small (v x : Nat) (hx : x < 2 ^ 53) (h : roundToDouble v = some x) :
    v = x := by
  by_cases hv : v < 2 ^ 53
  · rw [roundToDouble_of_lt v hv] at h
    injection h
  · have := roundToDouble_ge v x (by omega) h
    omega

theorem decimalLength_le (fuel x e : Nat) (hx : x < 10 ^ e) (he : 0 < e) :
    decimalLength fuel x ≤ e := by
  induction fuel generalizing x e with
  | zero => simp [decimalLength]
  | succ fuel ih =>
    simp only [decimalLength]
    split
    · omega
    · rename_i h10
      obtain ⟨e1, rfl⟩ : ∃ e1, e = e1 + 1 := ⟨e - 1, by omega⟩
      have he1 : 0 < e1 := by
        by_contra hle
        have h0 : e1 = 0 := by omega
        subst h0
        simp at hx
        omega
      have hx2 : x / 10 < 10 ^ e1 := by
        rw [Nat.div_lt_iff_lt_mul (by decide), ← Nat.pow_succ]
        exact hx
      have := ih (x / 10) e1 hx2 he1
      omega

theorem closestCandidate_mem (x k : Nat) (l : List (Nat × Nat)) (c : Nat × Nat)
    (h : closestCandidate x k l = some c) : c ∈ l := by
  induction l generalizing c with
  | nil => simp [closestCandidate] at h
  | cons a as ih =>
    simp only [closestCandidate] at h
    cases hrec : closestCandidate x k as with
    | none =>
      rw [hrec] at h
      injection h with h
      rw [← h]
      exact List.mem_cons_self _ _
    | some d =>
      rw [hrec] at h
      have hd : d ∈ as := ih d hrec
      simp only [] at h
      split at h
      · injection h with h
        rw [← h]
        exact List.mem_cons_self _ _
      · split at h
        · injection h with h
          rw [← h]
          exact List.mem_cons_of_mem _ hd
        · split at h
          · injection h with h
            rw [← h]
            exact List.mem_cons_self _ _
          · injection h with h
            rw [← h]
            exact List.mem_cons_of_mem _ hd

theorem shortestDigits_mem (x fuel k0 s n k : Nat)
    (h : shortestDigits x fuel k0 = some (s, n, k)) : (s, n) ∈ digitCandidates x k := by
  induction fuel generalizing k0 with
  | zero => simp [shortestDigits] at h
  | succ fuel ih =>
    simp only [shortestDigits] at h
    cases hc : closestCandidate x k0 (digitCandidates x k0) with
    | none =>
      rw [hc] at h
      exact ih (k0 + 1) h
    | some c =>
      rw [hc] at h
      simp only [Option.some.injEq, Prod.mk.injEq] at h
      obtain ⟨h1, h2, h3⟩ := h
      have := closestCandidate_mem x k0 _ c hc
      rw [← h1, ← h2, ← h3]
      exact this

/-- Below `2^53` every integer is its own double and prints as its decimal
numeral. -/
theorem positiveToString_safe (x : Nat) (hx : x < 2 ^ 53) :
    positiveToString x = Nat.repr x := by
  unfold positiveToString
  cases hs : shortestDigits x (decimalLength x x) 1 with
  | none => rfl
  | some r =>
    obtain ⟨s, n, k⟩ := r
    have hmem := shortestDigits_mem x _ 1 s n k hs
    unfold digitCandidates at hmem
    simp only [List.mem_filter, Bool.and_eq_true, decide_eq_true_eq] at hmem
    obtain ⟨hin, ⟨_, _⟩, hround⟩ := hmem
    have hval : s * 10 ^ (n - k) = x := roundToDouble_eq_small _ x hx hround
    have hD : decimalLength x x ≤ 16 :=
      decimalLength_le x x 16 (Nat.lt_of_lt_of_le hx (by norm_num)) (by decide)
    have hn : n ≤ 21 := by
      simp only [List.cons_append, List.nil_append, List.mem_cons, Prod.mk.injEq,
        List.mem_singleton, List.not_mem_nil, or_false] at hin
      rcases hin with h | h | h | h <;> omega
    simp only [hn, if_true, hval]

theorem isDecimalDigit_not_space (c : Char) (h : isDecimalDigit c = true) :
    isStrWhiteSpaceChar c = false ∧ c ≠ '+' ∧ c ≠ '-' := by
  simp only [isDecimalDigit, Bool.and_eq_true, decide_eq_true_eq] at h
  refine ⟨?_, ?_, ?_⟩
  · simp only [isStrWhiteSpaceChar, Bool.or_eq_false_iff, Bool.and_eq_false_iff,
      decide_eq_false_iff_not]
    omega
  · intro hc
    rw [hc] at h
    have : '+'.toNat = 43 := rfl
    omega
  · intro hc
    rw [hc] at h
    have : '-'.toNat = 45 := rfl
    omega

theorem digitChar_spec (m : Nat) (h : m < 10) :
    isDecimalDigit (Nat.digitChar m) = true ∧ (Nat.digitChar m).toNat - 0x30 = m := by
  interval_cases m <;> exact ⟨by decide, by decide⟩

theorem digitsValue_append (acc : Nat) (xs ys : List Char) :
    digitsValue acc (xs ++ ys) = digitsValue (digitsValue acc xs) ys := by
  induction xs generalizing acc with
  | nil => rfl
  | cons c cs ih => exact ih _

theorem digitsValue_singleton (acc : Nat) (c : Char) :
    digitsValue acc [c] = acc * 10 + (c.toNat - 0x30) := rfl

theorem toDigitsCore_spec (fuel n : Nat) (ds : List Char) (h : n < fuel) :
    ∃ pre, Nat.toDigitsCore 10 fuel n ds = pre ++ ds ∧ pre ≠ [] ∧
      (∀ c ∈ pre, isDecimalDigit c = true) ∧
      ∀ acc, digitsValue acc pre = acc * 10 ^ pre.length + n := by
  induction fuel generalizing n ds with
  | zero => omega
  | succ fuel ih =>
    obtain ⟨hdig, hval⟩ := digitChar_spec (n % 10) (Nat.mod_lt _ (by decide))
    simp only [Nat.toDigitsCore]
    by_cases h0 : n / 10 = 0
    · refine ⟨[Nat.digitChar (n % 10)], by simp [h0], by simp, by simpa using hdig, ?_⟩
      intro acc
      rw [digitsValue_singleton, hval, List.length_singleton, pow_one]
      omega
    · obtain ⟨pre, h1, _, h3, h4⟩ := ih (n / 10) (Nat.digitChar (n % 10) :: ds) (by omega)
      refine ⟨pre ++ [Nat.digitChar (n % 10)], by simp [h0, h1], by simp, ?_, ?_⟩
      · intro c hc
        rcases List.mem_append.mp hc with hc | hc
        · exact h3 c hc
        · have : c = Nat.digitChar (n % 10) := by simpa using hc
          rw [this]
          exact hdig
      · intro acc
        rw [digitsValue_append, h4, digitsValue_singleton, hval, List.length_append,
          List.length_singleton, Nat.pow_succ, Nat.add_mul, Nat.mul_assoc]
        omega

/-- The decimal numeral of `n`, as `parseInt` reads it: all digits, not empty,
with value `n`. -/
theorem repr_digits (n : Nat) :
    (Nat.repr n).data ≠ [] ∧ (∀ c ∈ (Nat.repr n).data, isDecimalDigit c = true) ∧
      digitsValue 0 (Nat.repr n).data = n := by
  obtain ⟨pre, h1, h2, h3, h4⟩ := toDigitsCore_spec (n + 1) n [] (Nat.lt_succ_self n)
  have hdata : (Nat.repr n).data = pre := by
    show Nat.toDigitsCore 10 (n + 1) n [] = pre
    rw [h1, List.append_nil]
  rw [hdata]
  exact ⟨h2, h3, by simpa using h4 0⟩

theorem parseInt_digits (a : String) (hne : a.data ≠ [])
    (hdig : ∀ c ∈ a.data, isDecimalDigit c = true) :
    parseInt a =
      if digitsValue 0 a.data = 0 then JSNumber.finite false 0
      else
        match roundToDouble (digitsValue 0 a.data) with
        | some v => JSNumber.finite false v
        | none => JSNumber.infinity false := by
  unfold parseInt
  cases hdata : a.data with
  | nil => exact absurd hdata hne
  | cons c cs =>
    have hc : isDecimalDigit c = true := hdig c (hdata ▸ List.mem_cons_self c cs)
    obtain ⟨hws, hplus, hminus⟩ := isDecimalDigit_not_space c hc
    have htake : (c :: cs).takeWhile isDecimalDigit = c :: cs := by
      rw [List.takeWhile_eq_self_iff]
      intro x hx
      exact hdig x (hdata ▸ hx)
    simp [List.dropWhile, hws, hplus, hminus, htake]

theorem parseInt_repr (n : Nat) (hpos : 0 < n) (hsafe : n ≤ 2 ^ 53) :
    parseInt (Nat.repr n) = JSNumber.finite false n := by
  rcases Nat.lt_or_eq_of_le hsafe with hlt | heq
  · obtain ⟨h1, h2, h3⟩ := repr_digits n
    rw [parseInt_digits _ h1 h2, h3, roundToDouble_of_lt n hlt]
    have : n ≠ 0 := by omega
    simp [this]
  · subst heq
    decide

theorem parseInt_nan_iff (a : String) :
    parseInt a = JSNumber.nan ↔ hasLeadingInteger a = false := by
  unfold parseInt hasLeadingInteger
  simp only []
  generalize (if (a.data.dropWhile isStrWhiteSpaceChar).head? = some '+' ∨
      (a.data.dropWhile isStrWhiteSpaceChar).head? = some '-' then
      (a.data.dropWhile isStrWhiteSpaceChar).tail
    else a.data.dropWhile isStrWhiteSpaceChar) = rest
  cases rest with
  | nil => simp
  | cons c cs =>
    by_cases hc : isDecimalDigit c = true
    · simp only [List.takeWhile_cons, hc, if_true, List.head?_cons]
      simp only [reduceCtorEq, if_false, Bool.true_eq_false, iff_false]
      split
      · simp
      · split <;> simp
    · simp [List.takeWhile_cons, hc]

theorem orZero_of_nonempty (a : String) (h : a.data ≠ []) : orZero (some a) = a := by
  have hne : a ≠ "" := by
    intro h1
    rw [h1] at h
    exact h rfl
  simp [orZero, hne]

theorem delayOf_absent (s : State) (t : Nat)
    (h : s.getDataDelay t = none ∨ s.getDataDelay t = some "") :
    delayOf s t = JSNumber.finite false 0 := by
  unfold delayOf
  rcases h with h | h <;> rw [h] <;> decide

theorem delayOf_no_integer (s : State) (t : Nat) (a : String)
    (h : s.getDataDelay t = some a) (hne : a ≠ "") :
    delayOf s t = JSNumber.nan ↔ hasLeadingInteger a = false := by
  unfold delayOf
  rw [h]
  simp only [orZero, hne, if_false]
  exact parseInt_nan_iff a

theorem delayOf_safe (s : State) (t n : Nat) (hpos : 0 < n) (hsafe : n ≤ 2 ^ 53)
    (h : s.getDataDelay t = some (Nat.repr n)) :
    delayOf s t = JSNumber.finite false n := by
  unfold delayOf
  rw [h, orZero_of_nonempty _ (repr_digits n).1, parseInt_repr n hpos hsafe]

theorem toJSString_safe (n : Nat) (hpos : 0 < n) (hsafe : n ≤ 2 ^ 53) :
    (JSNumber.finite false n).toJSString = Nat.repr n := by
  rcases Nat.lt_or_eq_of_le hsafe with hlt | heq
  · have hne : n ≠ 0 := by omega
    simp [JSNumber.toJSString, hne, positiveToString_safe n hlt]
  · subst heq
    decide

theorem delayOf_falsy (s : State) (t : Nat)
    (h : s.getDataDelay t = none ∨ s.getDataDelay t = some "" ∨
      ∃ a, s.getDataDelay t = some a ∧ hasLeadingInteger a = false) :
    (delayOf s t).truthy = false := by
  rcases h with h | h | ⟨a, h, hno⟩
  · rw [delayOf_absent s t (Or.inl h)]
    rfl
  · rw [delayOf_absent s t (Or.inr h)]
    rfl
  · by_cases hne : a = ""
    · rw [delayOf_absent s t (Or.inr (hne ▸ h))]
      rfl
    · rw [(delayOf_no_integer s t a h hne).mpr hno]
      rfl

theorem transitionDelayOf_after (io : Nat) (s : State) (e : Entry)
    (h : e.isIntersecting = true) :
    (processEntry io s e).transitionDelayOf e.target =
      (s.elements[e.target]?).map fun el =>
        if (delayOf s e.target).truthy then (delayOf s e.target).toJSString ++ "ms"
        else el.transitionDelay := by
  unfold State.transitionDelayOf
  rw [processEntry_elements, if_pos h, modifyAt_getElem?, if_pos rfl]
  cases hel : s.elements[e.target]? with
  | none => rfl
  | some el =>
    have hdel : delayOf s e.target = parseInt (orZero el.dataDelay) := by
      simp [delayOf, State.getDataDelay, hel]
    simp [revealElement, hdel]

theorem revealed_after (io : Nat) (s : State) (e : Entry) (h : e.isIntersecting = true)
    (hlt : e.target < s.elements.length) : (processEntry io s e).revealed e.target = true := by
  unfold State.revealed
  rw [processEntry_elements, if_pos h, modifyAt_getElem?, if_pos rfl,
    List.getElem?_eq_getElem hlt]
  simp [revealElement, Element.hasClass, tokenListAdd_mem]

theorem lt_length_of_getDataDelay (s : State) (t : Nat) (a : String)
    (h : s.getDataDelay t = some a) : t < s.elements.length := by
  by_contra hge
  unfold State.getDataDelay at h
  rw [List.getElem?_eq_none (Nat.le_of_not_lt hge)] at h
  cases h

theorem styleWrite_iff (io : Nat) (s : State) (e : Entry) (h : e.isIntersecting = true) :
    (∃ v, Effect.setTransitionDelay e.target v ∈
        (processEntry io s e).log.drop s.log.length) ↔
      (delayOf s e.target).truthy = true := by
  rw [processEntry_log, if_pos h, List.drop_left]
  by_cases hd : (delayOf s e.target).truthy = true
  · simp [hd]
  · simp [hd]

/-! ## Sign, value and size of a parsed delay -/

theorem parseInt_eq (a : String) :
    parseInt a =
      if digitRun a = [] then JSNumber.nan
      else if digitsValue 0 (digitRun a) = 0 then JSNumber.finite (hasLeadingMinus a) 0
      else
        match roundToDouble (digitsValue 0 (digitRun a)) with
        | some v => JSNumber.finite (hasLeadingMinus a) v
        | none => JSNumber.infinity (hasLeadingMinus a) := rfl

theorem parseInt_sign (a : String) :
    parseInt a = JSNumber.nan ∨ (∃ m, parseInt a = JSNumber.finite (hasLeadingMinus a) m) ∨
      parseInt a = JSNumber.infinity (hasLeadingMinus a) := by
  rw [parseInt_eq]
  split
  · exact Or.inl rfl
  · split
    · exact Or.inr (Or.inl ⟨0, rfl⟩)
    · split
      · exact Or.inr (Or.inl ⟨_, rfl⟩)
      · exact Or.inr (Or.inr rfl)

theorem takeWhile_append_stop (p : Char → Bool) (xs ys : List Char)
    (hx : ∀ c ∈ xs, p c = true) (hy : ∀ c, ys.head? = some c → p c = false) :
    (xs ++ ys).takeWhile p = xs := by
  induction xs with
  | nil =>
    cases ys with
    | nil => rfl
    | cons y ys => simp [List.takeWhile_cons, hy y rfl]
  | cons x xs ih =>
    simp [List.takeWhile_cons, hx x (List.mem_cons_self x xs),
      ih (fun c hc => hx c (List.mem_cons_of_mem x hc))]

theorem digitRun_unsigned (a : String) (Z rest : List Char) (ha : a.data = Z ++ rest)
    (hne : Z ≠ []) (hdig : ∀ c ∈ Z, isDecimalDigit c = true)
    (hrest : ∀ c, rest.head? = some c → isDecimalDigit c = false) :
    digitRun a = Z ∧ hasLeadingMinus a = false := by
  cases Z with
  | nil => exact absurd rfl hne
  | cons c cs =>
    obtain ⟨hws, hplus, hminus⟩ := isDecimalDigit_not_space c (hdig c (List.mem_cons_self c cs))
    have htake := takeWhile_append_stop isDecimalDigit (c :: cs) rest hdig hrest
    constructor
    · unfold digitRun
      rw [ha]
      simp only [List.cons_append, List.dropWhile_cons, hws, Bool.false_eq_true, if_false,
        List.head?_cons, Option.some.injEq, hplus, hminus, or_self]
      exact htake
    · unfold hasLeadingMinus
      rw [ha]
      simp [List.dropWhile_cons, hws, hminus]

theorem digitRun_minus (a : String) (Z rest : List Char) (ha : a.data = '-' :: (Z ++ rest))
    (hdig : ∀ c ∈ Z, isDecimalDigit c = true)
    (hrest : ∀ c, rest.head? = some c → isDecimalDigit c = false) :
    digitRun a = Z ∧ hasLeadingMinus a = true := by
  have hws : isStrWhiteSpaceChar '-' = false := by decide
  have htake := takeWhile_append_stop isDecimalDigit Z rest hdig hrest
  constructor
  · unfold digitRun
    rw [ha]
    simp only [List.dropWhile_cons, hws, Bool.false_eq_true, if_false, List.head?_cons,
      or_true, if_true, List.tail_cons]
    exact htake
  · unfold hasLeadingMinus
    rw [ha]
    simp [List.dropWhile_cons, hws]

theorem roundToDouble_safe (n : Nat) (h : n ≤ 2 ^ 53) : roundToDouble n = some n := by
  rcases Nat.lt_or_eq_of_le h with hlt | heq
  · exact roundToDouble_of_lt n hlt
  · subst heq
    decide

theorem parseInt_of_digitRun (a : String) (n : Nat) (sign : Bool) (hsafe : n ≤ 2 ^ 53)
    (hrun : digitRun a = (Nat.repr n).data) (hsign : hasLeadingMinus a = sign) :
    parseInt a = JSNumber.finite sign n := by
  obtain ⟨h1, _, h3⟩ := repr_digits n
  rw [parseInt_eq, hrun, h3, hsign, if_neg h1]
  by_cases h0 : n = 0
  · rw [if_pos h0, h0]
  · rw [if_neg h0, roundToDouble_safe n hsafe]

theorem bitLength_le (fuel m k : Nat) (h : m < 2 ^ k) : bitLength fuel m ≤ k := by
  induction fuel generalizing m k with
  | zero => simp [bitLength]
  | succ fuel ih =>
    simp only [bitLength]
    split
    · omega
    · rename_i hm
      cases k with
      | zero =>
        simp at h
        exact absurd h hm
      | succ k =>
        have h2 : m / 2 < 2 ^ k := by
          rw [Nat.div_lt_iff_lt_mul (by decide), ← Nat.pow_succ]
          exact h
        have := ih (m / 2) k h2
        omega

theorem roundToDouble_ne_none (v k : Nat) (h : v < 2 ^ k) (hk : k + 1 ≤ 1024) :
    roundToDouble v ≠ none := by
  by_cases hv : v < 2 ^ 53
  · rw [roundToDouble_of_lt v hv]
    exact fun hc => by cases hc
  · obtain ⟨ha, _⟩ := bitLength_spec v v (Nat.le_refl v) (by omega)
    intro hnone
    unfold roundToDouble at hnone
    rw [if_neg hv] at hnone
    generalize bitLength v v = L at ha hnone
    have he : 2 ^ (L - 53) ≤ v :=
      Nat.le_trans (Nat.pow_le_pow_right (by decide) (by omega)) ha
    have hbound : ∀ q, q ≤ v / 2 ^ (L - 53) + 1 →
        bitLength (q * 2 ^ (L - 53)) (q * 2 ^ (L - 53)) ≤ 1024 := by
      intro q hq
      have h1 : q * 2 ^ (L - 53) ≤ (v / 2 ^ (L - 53) + 1) * 2 ^ (L - 53) :=
        Nat.mul_le_mul_right _ hq
      have h2 : v / 2 ^ (L - 53) * 2 ^ (L - 53) ≤ v := Nat.div_mul_le_self v _
      have h3 : q * 2 ^ (L - 53) < 2 ^ (k + 1) := by
        rw [Nat.add_mul, Nat.one_mul] at h1
        rw [Nat.pow_succ]
        omega
      exact Nat.le_trans (bitLength_le _ _ _ h3) hk
    simp only [] at hnone
    split at hnone <;> split at hnone
    · cases hnone
    · rename_i hc
      exact hc (hbound _ (Nat.le_refl _))
    · cases hnone
    · rename_i hc
      exact hc (hbound _ (Nat.le_succ _))

theorem digitsValue_lt (Z : List Char) (acc : Nat) (hdig : ∀ c ∈ Z, isDecimalDigit c = true) :
    digitsValue acc Z < (acc + 1) * 10 ^ Z.length := by
  induction Z generalizing acc with
  | nil =>
    show acc < (acc + 1) * 10 ^ 0
    rw [Nat.pow_zero]
    omega
  | cons c cs ih =>
    have hc := hdig c (List.mem_cons_self c cs)
    simp only [isDecimalDigit, Bool.and_eq_true, decide_eq_true_eq] at hc
    have hd : c.toNat - 0x30 ≤ 9 := by omega
    have h1 := ih (acc * 10 + (c.toNat - 0x30)) (fun x hx => hdig x (List.mem_cons_of_mem c hx))
    have h2 : (acc * 10 + (c.toNat - 0x30) + 1) * 10 ^ cs.length ≤
        ((acc + 1) * 10) * 10 ^ cs.length := Nat.mul_le_mul_right _ (by omega)
    show digitsValue (acc * 10 + (c.toNat - 0x30)) cs < (acc + 1) * 10 ^ (cs.length + 1)
    rw [Nat.pow_succ, Nat.mul_comm (10 ^ cs.length) 10, ← Nat.mul_assoc]
    exact Nat.lt_of_lt_of_le h1 h2

theorem digitRun_length_le (a : String) : (digitRun a).length ≤ a.length := by
  unfold digitRun
  have h1 : (a.data.dropWhile isStrWhiteSpaceChar).length ≤ a.data.length :=
    (List.dropWhile_sublist _).length_le
  simp only []
  split
  · exact Nat.le_trans (List.takeWhile_sublist _).length_le
      (Nat.le_trans (List.tail_sublist _).length_le h1)
  · exact Nat.le_trans (List.takeWhile_sublist _).length_le h1

set_option exponentiation.threshold 2048 in
theorem parseInt_finite_of_short (a : String) (h : a.length ≤ 307) (negative : Bool) :
    parseInt a ≠ JSNumber.infinity negative := by
  have hlen := Nat.le_trans (digitRun_length_le a) h
  have hval : digitsValue 0 (digitRun a) < 2 ^ 1020 := by
    have h1 := digitsValue_lt (digitRun a) 0 (fun c hc => List.mem_takeWhile_imp hc)
    have h2 : 10 ^ (digitRun a).length ≤ 10 ^ 307 := Nat.pow_le_pow_right (by decide) hlen
    have h3 : (10 : Nat) ^ 307 < 2 ^ 1020 := by norm_num
    omega
  have hsome := roundToDouble_ne_none _ 1020 hval (by decide)
  rw [parseInt_eq]
  split
  · exact fun hc => by cases hc
  · split
    · exact fun hc => by cases hc
    · split
      · exact fun hc => by cases hc
      · rename_i hnone
        exact absurd hnone hsome

theorem delayOf_some (s : State) (t : Nat) (a : String) (h : s.getDataDelay t = some a)
    (hne : a ≠ "") : delayOf s t = parseInt a := by
  unfold delayOf
  rw [h]
  simp [orZero, hne]

theorem delayOf_sign (s : State) (t : Nat) (a : String) (h : s.getDataDelay t = some a) :
    delayOf s t = JSNumber.nan ∨ (∃ m, delayOf s t = JSNumber.finite (hasLeadingMinus a) m) ∨
      delayOf s t = JSNumber.infinity (hasLeadingMinus a) := by
  by_cases hne : a = ""
  · subst hne
    rw [delayOf_absent s t (Or.inr h)]
    exact Or.inr (Or.inl ⟨0, rfl⟩)
  · rw [delayOf_some s t a h hne]
    exact parseInt_sign a

theorem delayOf_finite_of_short (s : State) (t : Nat) (a : String)
    (h : s.getDataDelay t = some a) (hlen : a.length ≤ 307) (negative : Bool) :
    delayOf s t ≠ JSNumber.infinity negative := by
  by_cases hne : a = ""
  · subst hne
    rw [delayOf_absent s t (Or.inr h)]
    exact fun hc => by cases hc
  · rw [delayOf_some s t a h hne]
    exact parseInt_finite_of_short a hlen negative

theorem string_ne_empty_of_data (a : String) (c : Char) (cs : List Char)
    (h : a.data = c :: cs) : a ≠ "" := by
  intro h1
  rw [h1] at h
  cases h

theorem delayOf_numeral (s : State) (t n : Nat) (rest : String) (hsafe : n ≤ 2 ^ 53)
    (hrest : ∀ c, rest.data.head? = some c → isDecimalDigit c = false)
    (h : s.getDataDelay t = some (Nat.repr n ++ rest)) :
    delayOf s t = JSNumber.finite false n := by
  obtain ⟨h1, h2, _⟩ := repr_digits n
  have hdata : (Nat.repr n ++ rest).data = (Nat.repr n).data ++ rest.data := rfl
  obtain ⟨hrun, hsign⟩ := digitRun_unsigned _ _ _ hdata h1 h2 hrest
  have hne : Nat.repr n ++ rest ≠ "" := by
    cases hd : (Nat.repr n).data with
    | nil => exact absurd hd h1
    | cons c cs => exact string_ne_empty_of_data _ c (cs ++ rest.data) (by rw [hdata, hd]; rfl)
  rw [delayOf_some s t _ h hne]
  exact parseInt_of_digitRun _ n false hsafe hrun hsign

theorem delayOf_minus_numeral (s : State) (t n : Nat) (rest : String) (hsafe : n ≤ 2 ^ 53)
    (hrest : ∀ c, rest.data.head? = some c → isDecimalDigit c = false)
    (h : s.getDataDelay t = some ("-" ++ Nat.repr n ++ rest)) :
    delayOf s t = JSNumber.finite true n := by
  obtain ⟨_, h2, _⟩ := repr_digits n
  have hdata : ("-" ++ Nat.repr n ++ rest).data = '-' :: ((Nat.repr n).data ++ rest.data) := rfl
  obtain ⟨hrun, hsign⟩ := digitRun_minus _ _ _ hdata h2 hrest
  rw [delayOf_some s t _ h (string_ne_empty_of_data _ _ _ hdata)]
  exact parseInt_of_digitRun _ n true hsafe hrun hsign

theorem truthy_iff_greaterThanZero (x : JSNumber)
    (h : x = JSNumber.nan ∨ (∃ m, x = JSNumber.finite false m) ∨ x = JSNumber.infinity false) :
    x.truthy = true ↔ x.greaterThanZero = true := by
  rcases h with h | ⟨m, h⟩ | h <;> subst h <;> simp [JSNumber.truthy, JSNumber.greaterThanZero]

/-! ## The claims -/

/-- C1. Capability fallback: on a page with at least one element matching
`.reveal` and no `IntersectionObserver`, initialization returns normally;
afterwards every matched element carries `in`, the calls made are exactly one
`classList.add('in')` per matched element (so no transition delay is written,
no watcher constructed and nothing observed), every element's transition
delay is what it was, and the watchers are what they were (none on a freshly
loaded page). -/
theorem capability_fallback (s : State) (hio : s.hasIntersectionObserver = false)
    (_hN : 1 ≤ (querySelectorAllClass "reveal" s.elements).length) :
    ∃ s1, init s = Except.ok s1 ∧
      (∀ i ∈ querySelectorAllClass "reveal" s.elements, s1.revealed i = true) ∧
      (∀ i, s1.transitionDelayOf i = s.transitionDelayOf i) ∧
      s1.log = s.log ++
        (querySelectorAllClass "reveal" s.elements).map (fun el => Effect.classListAdd el "in") ∧
      (∀ eff ∈ s1.log.drop s.log.length,
        eff.isStyleWrite = false ∧ eff.isObservationSetup = false) ∧
      s1.watchers = s.watchers ∧
      (s.watchers = [] → ∀ io, s1.observed io = []) := by
  refine ⟨_, init_fallback s (Or.inl hio), ?_⟩
  obtain ⟨_, h2, h3, h4⟩ :=
    foldl_classListAdd "in" (querySelectorAllClass "reveal" s.elements) s
  refine ⟨?_, ?_, h3, ?_, h2, ?_⟩
  · intro i hi
    unfold State.revealed
    rw [h4 i]
    have hlt := querySelectorAllClass_lt _ _ i hi
    rw [List.getElem?_eq_getElem hlt]
    simp [hi, Element.hasClass, tokenListAdd_mem]
  · intro i
    unfold State.transitionDelayOf
    rw [h4 i]
    cases s.elements[i]? with
    | none => rfl
    | some el =>
      by_cases hm : i ∈ querySelectorAllClass "reveal" s.elements <;> simp [hm]
  · intro eff heff
    rw [h3, List.drop_left] at heff
    obtain ⟨el, _, rfl⟩ := List.mem_map.mp heff
    exact ⟨rfl, rfl⟩
  · intro hw io
    unfold State.observed
    rw [h2, hw]
    rfl

theorem capability_fallback_witness :
    (load false [delayedCard, plainCard, footer]).hasIntersectionObserver = false ∧
    querySelectorAllClass "reveal" (load false [delayedCard, plainCard, footer]).elements =
      [0, 1] ∧
    ∃ s1, init (load false [delayedCard, plainCard, footer]) = Except.ok s1 ∧
      s1.revealed 0 = true ∧ s1.revealed 1 = true ∧
      s1.transitionDelayOf 0 = some "" ∧ s1.transitionDelayOf 1 = some "" ∧
      s1.watchers = [] ∧
      s1.log = [Effect.classListAdd 0 "in", Effect.classListAdd 1 "in"] := by
  obtain ⟨s1, h, hr, ht, hl, _, hw, _⟩ :=
    capability_fallback (load false [delayedCard, plainCard, footer]) rfl (by decide)
  exact ⟨rfl, by decide, s1, h, hr 0 (by decide), hr 1 (by decide), (ht 0).trans (by decide),
    (ht 1).trans (by decide), hw, hl.trans (by decide)⟩

/-- C2. No matches is a no-op: on a page with no element matching `.reveal`,
with or without `IntersectionObserver`, initialization returns normally and
leaves the whole state as it was: no watcher, no observation, no element
changed, no call made on the host. -/
theorem no_matches_noop (s : State)
    (h0 : (querySelectorAllClass "reveal" s.elements).length = 0) :
    init s = Except.ok s := by
  have hnil : querySelectorAllClass "reveal" s.elements = [] := List.length_eq_zero.mp h0
  rw [init_fallback s (Or.inr hnil), hnil]
  rfl

theorem no_matches_noop_witness :
    init (load true [footer]) = Except.ok (load true [footer]) ∧
    init (load false [footer]) = Except.ok (load false [footer]) ∧
    init (load true []) = Except.ok (load true []) :=
  ⟨no_matches_noop (load true [footer]) (by decide),
   no_matches_noop (load false [footer]) (by decide),
   no_matches_noop (load true []) (by decide)⟩

/-- C5. Threshold gating: an entry reported with `isIntersecting = false`
leaves the whole state as it was, wherever it stands in its batch: no class
list or style changes, no call is made, `in` is not added, and a target that
was observed by the watcher still is. -/
theorem threshold_gating (io : Nat) (s : State) (e : Entry)
    (h : e.isIntersecting = false) :
    processEntry io s e = s ∧
    (∀ before after, callback io (before ++ e :: after) s = callback io (before ++ after) s) ∧
    (processEntry io s e).classListOf e.target = s.classListOf e.target ∧
    (processEntry io s e).transitionDelayOf e.target = s.transitionDelayOf e.target ∧
    (processEntry io s e).revealed e.target = s.revealed e.target ∧
    (e.target ∈ s.observed io → e.target ∈ (processEntry io s e).observed io) := by
  have hs := processEntry_not_intersecting io s e h
  refine ⟨hs, ?_, by rw [hs], by rw [hs], by rw [hs], by rw [hs]; exact id⟩
  intro before after
  rw [callback_append, callback_append, callback_cons,
    processEntry_not_intersecting io _ e h]

theorem threshold_gating_witness :
    0 ∈ watchedCard.observed 0 ∧
    processEntry 0 watchedCard { target := 0, isIntersecting := false } = watchedCard ∧
    0 ∈ (processEntry 0 watchedCard { target := 0, isIntersecting := false }).observed 0 :=
  ⟨by decide,
   (threshold_gating 0 watchedCard { target := 0, isIntersecting := false } rfl).1,
   (threshold_gating 0 watchedCard { target := 0, isIntersecting := false } rfl).2.2.2.2.2
     (by decide)⟩

/-- C8. One-way reveal: from any state, any sequence of invocations of the
script (runs of the initialization body and callback batches with any
entries, on any watcher) runs to completion, and every element that carried
`in` before carries it afterwards. -/
theorem one_way_reveal (s : State) (ops : List Op) :
    ∃ s1, run ops s = Except.ok s1 ∧ ∀ i, s.revealed i = true → s1.revealed i = true := by
  induction ops generalizing s with
  | nil => exact ⟨s, rfl, fun _ h => h⟩
  | cons op ops ih =>
    obtain ⟨s1, h1⟩ := step_total s op
    obtain ⟨s2, h2, h3⟩ := ih s1
    refine ⟨s2, ?_, fun i hr => h3 i (step_revealed_mono s s1 op h1 i hr)⟩
    simp only [run, h1]
    exact h2

/-- C10. Batch-order independence: for every state, watcher and batch, every
reordering of the batch leaves the callback with the same elements (class
lists and transition delays), the same watchers (observed sets) and the same
capability flag; and an element that is not the target of an intersecting
entry of the batch is as it was. -/
theorem batch_order_independence (io : Nat) (s : State) (batch reordered : List Entry)
    (hperm : batch.Perm reordered) :
    (callback io batch s).elements = (callback io reordered s).elements ∧
    (callback io batch s).watchers = (callback io reordered s).watchers ∧
    (callback io batch s).hasIntersectionObserver =
      (callback io reordered s).hasIntersectionObserver ∧
    (∀ i, i ∉ intersectingTargets batch →
      (callback io batch s).elements[i]? = s.elements[i]?) := by
  have hmem : ∀ i, i ∈ intersectingTargets batch ↔ i ∈ intersectingTargets reordered := by
    intro i
    exact ((hperm.filter _).map _).mem_iff
  refine ⟨?_, ?_, ?_, ?_⟩
  · apply List.ext_getElem?
    intro i
    rw [callback_elements_getElem?, callback_elements_getElem?]
    simp only [hmem i]
  · apply List.ext_getElem?
    intro j
    rw [callback_watchers_getElem?, callback_watchers_getElem?]
    have hf : ∀ l : List Nat,
        l.filter (fun t => decide (t ∉ intersectingTargets batch)) =
        l.filter (fun t => decide (t ∉ intersectingTargets reordered)) := by
      intro l
      apply List.filter_congr
      intro t _
      simp only [hmem t]
    simp only [hf]
  · rw [callback_hasIntersectionObserver, callback_hasIntersectionObserver]
  · intro i hi
    rw [callback_elements_getElem?]
    cases s.elements[i]? with
    | none => rfl
    | some el => simp [hi]

theorem batch_order_independence_witness :
    (callback 0 [{ target := 0, isIntersecting := true }, { target := 1, isIntersecting := true },
        { target := 0, isIntersecting := true }] (load true [delayedCard, plainCard])).elements =
    (callback 0 [{ target := 1, isIntersecting := true }, { target := 0, isIntersecting := true },
        { target := 0, isIntersecting := true }] (load true [delayedCard, plainCard])).elements :=
  (batch_order_independence 0 (load true [delayedCard, plainCard]) _ _
    (List.Perm.swap _ _ _)).1

/-- C9. Observation-set invariant: on a freshly loaded page with
`IntersectionObserver`, at least one element matching `.reveal` and none of
them carrying `in`, initialization returns with one watcher whose observed
set is exactly the matched elements, none revealed; after every sequence of
callback batches the observed set is exactly the matched elements that do not
carry `in` (so an element leaves the set in the step that adds `in` to it),
and whatever batches follow, no element comes back into the set. -/
theorem observation_set_invariant (doc : List Element)
    (hN : 1 ≤ (querySelectorAllClass "reveal" doc).length)
    (hfresh : ∀ i ∈ querySelectorAllClass "reveal" doc, (load true doc).revealed i = false) :
    ∃ s1, init (load true doc) = Except.ok s1 ∧
      s1.watchers.length = 1 ∧
      s1.observed 0 = querySelectorAllClass "reveal" doc ∧
      (∀ i ∈ querySelectorAllClass "reveal" doc, s1.revealed i = false) ∧
      ∀ batches : List (List Entry),
        (deliver (batches.map fun b => (0, b)) s1).observed 0 =
          (querySelectorAllClass "reveal" doc).filter
            (fun i => !(deliver (batches.map fun b => (0, b)) s1).revealed i) ∧
        (∀ i ∈ querySelectorAllClass "reveal" doc,
          i ∈ (deliver (batches.map fun b => (0, b)) s1).observed 0 ↔
            (deliver (batches.map fun b => (0, b)) s1).revealed i = false) ∧
        ∀ (later : List (List Entry)) (i : Nat),
          i ∈ (deliver ((batches ++ later).map fun b => (0, b)) s1).observed 0 →
            i ∈ (deliver (batches.map fun b => (0, b)) s1).observed 0 := by
  have hne : querySelectorAllClass "reveal" (load true doc).elements ≠ [] := by
    intro h
    have h1 : querySelectorAllClass "reveal" doc = [] := h
    rw [h1] at hN
    exact absurd hN (by decide)
  refine ⟨_, init_observing (load true doc) rfl hne, rfl, rfl, hfresh, ?_⟩
  intro batches
  have hinv := deliver_keeps_observed_eq 0 batches
    { load true doc with
      watchers := (load true doc).watchers ++
        [{ thresholdPercent := 12, rootMargin := "0px 0px -5% 0px",
           targets := querySelectorAllClass "reveal" (load true doc).elements }]
      log := (load true doc).log ++ Effect.construct (load true doc).watchers.length ::
        (querySelectorAllClass "reveal" (load true doc).elements).map
          (Effect.observe (load true doc).watchers.length) }
    (querySelectorAllClass "reveal" doc)
    (fun i hi => querySelectorAllClass_lt _ _ i hi)
    (by
      symm
      apply List.filter_eq_self.mpr
      intro i hi
      have := hfresh i hi
      simpa [State.revealed, load] using this)
  refine ⟨hinv, ?_, ?_⟩
  · intro i hi
    rw [hinv, List.mem_filter]
    simp [hi]
  · intro later i hmem
    rw [List.map_append, deliver_append] at hmem
    exact deliver_observed_subset _ _ 0 i hmem

theorem observation_set_invariant_witness :
    ∃ s1, init (load true [delayedCard, plainCard, footer]) = Except.ok s1 ∧
      s1.observed 0 = [0, 1] ∧
      (deliver [(0, [{ target := 1, isIntersecting := true }])] s1).observed 0 =
        [0, 1].filter (fun i =>
          !(deliver [(0, [{ target := 1, isIntersecting := true }])] s1).revealed i) := by
  obtain ⟨s1, h, _, ho, _, hb⟩ :=
    observation_set_invariant [delayedCard, plainCard, footer] (by decide) (by decide)
  exact ⟨s1, h, ho, (hb [[{ target := 1, isIntersecting := true }]]).1⟩

/-- C6 (amended). Duplicate report: when an element is reported intersecting,
any batches are then delivered, and the element is reported intersecting
again, the second report leaves every element and every watcher as it found
them; the element's class list and transition delay are what they were after
the first report, with `in` present once when it was absent at the start;
the element is observed by the watcher neither after the first report nor
after the second.  The second report does repeat the calls: it writes the
same transition delay again when the parsed delay is truthy, and calls
`classList.add('in')` and `unobserve` again. -/
theorem duplicate_report (io : Nat) (s : State) (t : Nat) (between : List (Nat × List Entry)) :
    let first := processEntry io s { target := t, isIntersecting := true }
    let before := deliver between first
    let second := processEntry io before { target := t, isIntersecting := true }
    second.elements = before.elements ∧
    second.watchers = before.watchers ∧
    second.classListOf t = first.classListOf t ∧
    second.transitionDelayOf t = first.transitionDelayOf t ∧
    (∀ cl, s.classListOf t = some cl → "in" ∉ cl →
      second.classListOf t = some (cl ++ ["in"])) ∧
    t ∉ first.observed io ∧ t ∉ second.observed io ∧
    second.log = before.log ++
      ((if (delayOf s t).truthy then
          [Effect.setTransitionDelay t ((delayOf s t).toJSString ++ "ms")]
        else []) ++ [Effect.classListAdd t "in", Effect.unobserve io t]) := by
  intro first before second
  have hfirst : ∀ el, first.elements[t]? = some el → revealElement el = el := by
    intro el hel
    rw [elements_after_report] at hel
    cases h0 : s.elements[t]? with
    | none => simp [h0] at hel
    | some el0 =>
      simp only [h0, Option.map_some', if_true, Option.some.injEq] at hel
      rw [← hel, revealElement_idem]
  have hbefore_t : before.elements[t]? = first.elements[t]? :=
    deliver_elements_settled between first t hfirst
  have hobs1 : t ∉ first.observed io := not_mem_observed_after_report io s t
  have hobs2 : t ∉ before.observed io :=
    fun h => hobs1 (deliver_observed_subset between first io t h)
  obtain ⟨hE, hW⟩ := report_settled io before t
    (fun el hel => hfirst el (hbefore_t ▸ hel)) hobs2
  have hdelay : delayOf before t = delayOf s t := by
    unfold delayOf
    congr 2
    apply getDataDelay_eq_of_elements
    rw [hbefore_t, elements_after_report]
    cases s.elements[t]? with
    | none => rfl
    | some el => simp [revealElement]
  refine ⟨hE, hW, ?_, ?_, ?_, hobs1, ?_, ?_⟩
  · show (second.elements[t]?).map _ = (first.elements[t]?).map _
    rw [hE, hbefore_t]
  · show (second.elements[t]?).map _ = (first.elements[t]?).map _
    rw [hE, hbefore_t]
  · intro cl hcl hin
    show (second.elements[t]?).map _ = _
    rw [hE, hbefore_t, elements_after_report]
    have hcl1 : (s.elements[t]?).map Element.classList = some cl := hcl
    cases h0 : s.elements[t]? with
    | none => simp [h0] at hcl1
    | some el0 =>
      simp only [h0, Option.map_some', Option.some.injEq] at hcl1
      simp [revealElement, tokenListAdd, hcl1, hin]
  · show t ∉ State.observed second io
    unfold State.observed
    rw [hW]
    exact hobs2
  · show (processEntry io before { target := t, isIntersecting := true }).log = _
    rw [processEntry_log]
    simp only [if_true, hdelay]

/-- C6, as stated, fails: on a page holding one element with
`data-delay="300"`, the second intersecting report of that element writes the
transition delay again (the calls it adds to the log start with that write),
although the element ends as the first report left it. -/
theorem second_report_writes_style :
    init (load true [delayedCard]) = Except.ok watchedCard ∧
    (callback 0 [{ target := 0, isIntersecting := true }]
        (callback 0 [{ target := 0, isIntersecting := true }] watchedCard)).log =
      (callback 0 [{ target := 0, isIntersecting := true }] watchedCard).log ++
        [Effect.setTransitionDelay 0 "300ms", Effect.classListAdd 0 "in",
         Effect.unobserve 0 0] ∧
    ¬ (∀ eff ∈ (callback 0 [{ target := 0, isIntersecting := true }]
          (callback 0 [{ target := 0, isIntersecting := true }] watchedCard)).log.drop
          (callback 0 [{ target := 0, isIntersecting := true }] watchedCard).log.length,
        eff.isStyleWrite = false) := by
  refine ⟨rfl, by decide, ?_⟩
  decide

/-- C7 (amended). Re-initialization: the script has no guard against a second
run.  Running the initialization body twice with `IntersectionObserver` and
at least one match constructs two watchers, each observing every matched
element, and changes no element.  When one crossing of a matched element is
then reported to both callbacks, the reveal calls are made twice, the second
time leaving every element as the first left it, and afterwards neither
watcher observes the element. -/
theorem reinit_registers_twice (s : State) (hio : s.hasIntersectionObserver = true)
    (hN : 1 ≤ (querySelectorAllClass "reveal" s.elements).length) :
    ∃ s2, run [Op.init, Op.init] s = Except.ok s2 ∧
      s2.watchers.length = s.watchers.length + 2 ∧
      s2.observed s.watchers.length = querySelectorAllClass "reveal" s.elements ∧
      s2.observed (s.watchers.length + 1) = querySelectorAllClass "reveal" s.elements ∧
      s2.elements = s.elements ∧
      ∀ t ∈ querySelectorAllClass "reveal" s.elements,
        let once := callback s.watchers.length [{ target := t, isIntersecting := true }] s2
        let twice := callback (s.watchers.length + 1) [{ target := t, isIntersecting := true }] once
        once.revealed t = true ∧
        twice.elements = once.elements ∧
        twice.log = once.log ++
          ((if (delayOf s t).truthy then
              [Effect.setTransitionDelay t ((delayOf s t).toJSString ++ "ms")]
            else []) ++
            [Effect.classListAdd t "in", Effect.unobserve (s.watchers.length + 1) t]) ∧
        t ∉ twice.observed s.watchers.length ∧
        t ∉ twice.observed (s.watchers.length + 1) := by
  have hne : querySelectorAllClass "reveal" s.elements ≠ [] := by
    intro h
    rw [h] at hN
    exact absurd hN (by decide)
  have h1 := init_observing s hio hne
  have h2 := init_observing
    { s with
      watchers := s.watchers ++
        [{ thresholdPercent := 12, rootMargin := "0px 0px -5% 0px",
           targets := querySelectorAllClass "reveal" s.elements }]
      log := s.log ++ Effect.construct s.watchers.length ::
        (querySelectorAllClass "reveal" s.elements).map (Effect.observe s.watchers.length) }
    hio hne
  refine ⟨_, (run_cons_ok _ _ Op.init _ h1).trans ((run_cons_ok _ _ Op.init _ h2).trans rfl),
    by simp, ?_, ?_, rfl, ?_⟩
  · show State.observed _ _ = _
    unfold State.observed
    simp only []
    rw [(getElem?_append_two s.watchers _ _).1]
  · show State.observed _ _ = _
    unfold State.observed
    simp only []
    rw [(getElem?_append_two s.watchers _ _).2]
  · intro t ht once twice
    have hlt : t < s.elements.length := querySelectorAllClass_lt _ _ t ht
    have honce : once =
        processEntry s.watchers.length _ { target := t, isIntersecting := true } := rfl
    have htwice : twice =
        processEntry (s.watchers.length + 1) once { target := t, isIntersecting := true } := rfl
    have honce_el : ∀ el, once.elements[t]? = some el → revealElement el = el := by
      intro el hel
      rw [honce, elements_after_report] at hel
      simp only [List.getElem?_eq_getElem hlt, Option.map_some', if_true,
        Option.some.injEq] at hel
      rw [← hel, revealElement_idem]
    refine ⟨?_, ?_, ?_, ?_, ?_⟩
    · rw [honce, processEntry_eq_callback, callback_revealed]
      simp [intersectingTargets, hlt]
    · rw [htwice, processEntry_elements]
      simp only [if_true]
      exact modifyAt_id _ _ _ honce_el
    · rw [htwice, processEntry_log]
      have hdelay : delayOf once t = delayOf s t := by
        unfold delayOf
        congr 2
        apply getDataDelay_eq_of_elements
        rw [honce, elements_after_report]
        simp [List.getElem?_eq_getElem hlt, revealElement]
      simp only [if_true, hdelay]
    · rw [htwice, processEntry_eq_callback, callback_observed]
      simp only [Nat.self_eq_add_right, one_ne_zero, if_false]
      rw [honce]
      exact not_mem_observed_after_report _ _ t
    · rw [htwice]
      exact not_mem_observed_after_report _ once t

theorem reinit_registers_twice_witness :
    ∃ s2, run [Op.init, Op.init] (load true [delayedCard, plainCard]) = Except.ok s2 ∧
      s2.watchers.length = 2 ∧ s2.observed 0 = [0, 1] ∧ s2.observed 1 = [0, 1] := by
  obtain ⟨s2, h, hl, h0, h1, _⟩ :=
    reinit_registers_twice (load true [delayedCard, plainCard]) rfl (by decide)
  exact ⟨s2, h, hl, h0.trans (by decide), h1.trans (by decide)⟩

/-- C7, as stated, fails: after two runs of the initialization body on a page
holding one matched element, that element is observed by two watchers; and
an element revealed between the runs is registered again by the second run. -/
theorem second_run_registers_again :
    (∃ s2, run [Op.init, Op.init] (load true [plainCard]) = Except.ok s2 ∧
      s2.watchers.length = 2 ∧ 0 ∈ s2.observed 0 ∧ 0 ∈ s2.observed 1) ∧
    (∃ s3, run [Op.init, Op.callback 0 [{ target := 0, isIntersecting := true }], Op.init]
        (load true [plainCard]) = Except.ok s3 ∧
      s3.revealed 0 = true ∧ 0 ∈ s3.observed 1) :=
  ⟨⟨_, rfl, by decide, by decide, by decide⟩, ⟨_, rfl, by decide, by decide⟩⟩

/-- C3 (amended). Delay application: for an intersecting entry whose target's
`data-delay` is the decimal numeral of a positive integer `n` up to `2^53`,
the callback writes the transition delay `n` followed by `ms`, then adds the
class `in`, then stops observing, and the element ends with that transition
delay and the class.  For an intersecting entry whose target has no
`data-delay`, an empty one, or one with no leading integer, the callback
writes no transition delay (the element keeps the one it had) and still adds
the class `in`. -/
theorem delay_application (io : Nat) (s : State) (e : Entry) (hint : e.isIntersecting = true) :
    (∀ n, 0 < n → n ≤ 2 ^ 53 → s.getDataDelay e.target = some (Nat.repr n) →
      (processEntry io s e).log = s.log ++
        [Effect.setTransitionDelay e.target (Nat.repr n ++ "ms"),
         Effect.classListAdd e.target "in", Effect.unobserve io e.target] ∧
      (processEntry io s e).transitionDelayOf e.target = some (Nat.repr n ++ "ms") ∧
      (processEntry io s e).revealed e.target = true) ∧
    ((s.getDataDelay e.target = none ∨ s.getDataDelay e.target = some "" ∨
        ∃ a, s.getDataDelay e.target = some a ∧ hasLeadingInteger a = false) →
      (processEntry io s e).log = s.log ++
        [Effect.classListAdd e.target "in", Effect.unobserve io e.target] ∧
      (processEntry io s e).transitionDelayOf e.target = s.transitionDelayOf e.target ∧
      (e.target < s.elements.length → (processEntry io s e).revealed e.target = true)) := by
  constructor
  · intro n hpos hsafe hattr
    have hdel := delayOf_safe s e.target n hpos hsafe hattr
    have htruthy : (JSNumber.finite false n).truthy = true := by
      have hne : n ≠ 0 := by omega
      simp [JSNumber.truthy, hne]
    have hlt := lt_length_of_getDataDelay s e.target _ hattr
    refine ⟨?_, ?_, revealed_after io s e hint hlt⟩
    · rw [processEntry_log, if_pos hint, hdel, htruthy, toJSString_safe n hpos hsafe]
      simp
    · rw [transitionDelayOf_after io s e hint, hdel, htruthy, toJSString_safe n hpos hsafe,
        List.getElem?_eq_getElem hlt]
      simp
  · intro hattr
    have hfalsy := delayOf_falsy s e.target hattr
    refine ⟨?_, ?_, revealed_after io s e hint⟩
    · rw [processEntry_log, if_pos hint, hfalsy]
      simp
    · rw [transitionDelayOf_after io s e hint, hfalsy]
      unfold State.transitionDelayOf
      cases s.elements[e.target]? <;> simp

theorem delay_application_witness :
    watchedCard.getDataDelay 0 = some "300" ∧
    (load true [malformedCard]).getDataDelay 0 = some "abc" ∧
    (processEntry 0 watchedCard { target := 0, isIntersecting := true }).transitionDelayOf 0 =
      some "300ms" ∧
    (processEntry 0 watchedCard { target := 0, isIntersecting := true }).log =
      watchedCard.log ++
        [Effect.setTransitionDelay 0 (Nat.repr 300 ++ "ms"), Effect.classListAdd 0 "in",
         Effect.unobserve 0 0] ∧
    (processEntry 0 (load true [malformedCard]) { target := 0, isIntersecting := true }).log =
      (load true [malformedCard]).log ++ [Effect.classListAdd 0 "in", Effect.unobserve 0 0] :=
  ⟨by decide, by decide,
   ((delay_application 0 watchedCard { target := 0, isIntersecting := true } rfl).1
      300 (by decide) (by decide) (by decide)).2.1.trans (by decide),
   ((delay_application 0 watchedCard { target := 0, isIntersecting := true } rfl).1
      300 (by decide) (by decide) (by decide)).1,
   ((delay_application 0 (load true [malformedCard]) { target := 0, isIntersecting := true }
      rfl).2
      (Or.inr (Or.inr ⟨"abc", by decide, by decide⟩))).1⟩

/-- C3, as stated for every positive integer, fails above `2^53`: with
`data-delay="9007199254740993"` (`2^53 + 1`) `parseInt` yields the double
`9007199254740992`, and the transition delay written is `9007199254740992ms`,
not the attribute's numeral followed by `ms`. -/
theorem large_delay_rounds :
    (load true [hugeDelayCard]).getDataDelay 0 = some (Nat.repr 9007199254740993) ∧
    delayOf (load true [hugeDelayCard]) 0 = JSNumber.finite false 9007199254740992 ∧
    (processEntry 0 (load true [hugeDelayCard]) { target := 0, isIntersecting := true }).log =
      [Effect.setTransitionDelay 0 "9007199254740992ms", Effect.classListAdd 0 "in",
       Effect.unobserve 0 0] ∧
    (processEntry 0 (load true [hugeDelayCard])
        { target := 0, isIntersecting := true }).transitionDelayOf 0 ≠
      some (Nat.repr 9007199254740993 ++ "ms") := by
  refine ⟨by decide, by decide, by decide, by decide⟩

/-- C4 (amended). The delay the callback computes for an intersecting entry is
the result of `parseInt`.  It is `+0` when `data-delay` is absent or empty,
and `NaN` exactly when a non-empty value has no leading integer.  Its sign is
that of the value: when the value has no leading minus sign (or is absent)
the delay is `NaN` or non-negative, and with a leading minus sign it is `NaN`
or carries the negative sign.  It is an integer whenever the value has at
most 307 characters, and a numeral of `n ≤ 2^53` followed by text that does
not start with a digit gives exactly `n` (`-n` after a minus sign).  The
callback writes the transition delay if and only if the delay is truthy, that
is, neither `NaN` nor zero; so for every value without a leading minus sign,
if and only if the delay is greater than zero.  It adds the class `in` in
every case. -/
theorem delay_value (io : Nat) (s : State) (e : Entry) (hint : e.isIntersecting = true) :
    ((s.getDataDelay e.target = none ∨ s.getDataDelay e.target = some "") →
      delayOf s e.target = JSNumber.finite false 0) ∧
    (∀ a, s.getDataDelay e.target = some a → a ≠ "" →
      (delayOf s e.target = JSNumber.nan ↔ hasLeadingInteger a = false)) ∧
    ((∃ v, Effect.setTransitionDelay e.target v ∈
        (processEntry io s e).log.drop s.log.length) ↔
      (delayOf s e.target).truthy = true) ∧
    ((delayOf s e.target).truthy = true ↔
      delayOf s e.target ≠ JSNumber.nan ∧
        ∀ negative, delayOf s e.target ≠ JSNumber.finite negative 0) ∧
    (∀ m, delayOf s e.target = JSNumber.finite false m →
      ((∃ v, Effect.setTransitionDelay e.target v ∈
          (processEntry io s e).log.drop s.log.length) ↔ 0 < m)) ∧
    Effect.classListAdd e.target "in" ∈ (processEntry io s e).log.drop s.log.length ∧
    (∀ a, s.getDataDelay e.target = some a →
      (delayOf s e.target = JSNumber.nan ∨
        (∃ m, delayOf s e.target = JSNumber.finite (hasLeadingMinus a) m) ∨
        delayOf s e.target = JSNumber.infinity (hasLeadingMinus a))) ∧
    ((s.getDataDelay e.target = none ∨
        ∃ a, s.getDataDelay e.target = some a ∧ hasLeadingMinus a = false) →
      (delayOf s e.target = JSNumber.nan ∨
        (∃ m, delayOf s e.target = JSNumber.finite false m) ∨
        delayOf s e.target = JSNumber.infinity false) ∧
      ((∃ v, Effect.setTransitionDelay e.target v ∈
          (processEntry io s e).log.drop s.log.length) ↔
        (delayOf s e.target).greaterThanZero = true)) ∧
    (∀ a, s.getDataDelay e.target = some a → a.length ≤ 307 →
      ∀ negative, delayOf s e.target ≠ JSNumber.infinity negative) ∧
    (∀ n rest, n ≤ 2 ^ 53 →
      (∀ c, rest.data.head? = some c → isDecimalDigit c = false) →
      (s.getDataDelay e.target = some (Nat.repr n ++ rest) →
        delayOf s e.target = JSNumber.finite false n) ∧
      (s.getDataDelay e.target = some ("-" ++ Nat.repr n ++ rest) →
        delayOf s e.target = JSNumber.finite true n)) := by
  refine ⟨delayOf_absent s e.target, fun a h hne => delayOf_no_integer s e.target a h hne,
    styleWrite_iff io s e hint, ?_, ?_, ?_, fun a h => delayOf_sign s e.target a h, ?_,
    fun a h hlen negative => delayOf_finite_of_short s e.target a h hlen negative,
    fun n rest hsafe hrest =>
      ⟨delayOf_numeral s e.target n rest hsafe hrest,
       delayOf_minus_numeral s e.target n rest hsafe hrest⟩⟩
  · cases hd : delayOf s e.target with
    | nan => simp [JSNumber.truthy]
    | infinity negative => simp [JSNumber.truthy]
    | finite negative m =>
      by_cases hm : m = 0
      · subst hm
        simp [JSNumber.truthy]
      · simp [JSNumber.truthy, hm]
  · intro m hm
    rw [styleWrite_iff io s e hint, hm]
    simp [JSNumber.truthy, Nat.pos_iff_ne_zero]
  · rw [processEntry_log, if_pos hint, List.drop_left]
    simp
  · intro hattr
    have hsign : delayOf s e.target = JSNumber.nan ∨
        (∃ m, delayOf s e.target = JSNumber.finite false m) ∨
        delayOf s e.target = JSNumber.infinity false := by
      rcases hattr with h | ⟨a, h, hminus⟩
      · exact Or.inr (Or.inl ⟨0, delayOf_absent s e.target (Or.inl h)⟩)
      · have := delayOf_sign s e.target a h
        rw [hminus] at this
        exact this
    exact ⟨hsign, (styleWrite_iff io s e hint).trans (truthy_iff_greaterThanZero _ hsign)⟩

theorem delay_value_witness :
    delayOf watchedCard 0 = JSNumber.finite false 300 ∧
    ((∃ v, Effect.setTransitionDelay 0 v ∈
        (processEntry 0 watchedCard { target := 0, isIntersecting := true }).log.drop
          watchedCard.log.length) ↔ 0 < 300) ∧
    delayOf (load true [plainCard]) 0 = JSNumber.finite false 0 ∧
    (load true [trailingTextCard]).getDataDelay 0 = some (Nat.repr 12 ++ "abc") ∧
    delayOf (load true [trailingTextCard]) 0 = JSNumber.finite false 12 ∧
    (load true [negativeDelayCard]).getDataDelay 0 = some ("-" ++ Nat.repr 5 ++ "") ∧
    delayOf (load true [negativeDelayCard]) 0 = JSNumber.finite true 5 :=
  ⟨by decide,
   (delay_value 0 watchedCard { target := 0, isIntersecting := true } rfl).2.2.2.2.1 300
     (by decide),
   (delay_value 0 (load true [plainCard]) { target := 0, isIntersecting := true } rfl).1
     (Or.inl (by decide)),
   by decide,
   ((delay_value 0 (load true [trailingTextCard]) { target := 0, isIntersecting := true }
      rfl).2.2.2.2.2.2.2.2.2 12 "abc" (by decide) (by decide)).1 (by decide),
   by decide,
   ((delay_value 0 (load true [negativeDelayCard]) { target := 0, isIntersecting := true }
      rfl).2.2.2.2.2.2.2.2.2 5 "" (by decide) (by decide)).2 (by decide)⟩

set_option maxRecDepth 100000 in
set_option exponentiation.threshold 2048 in
/-- C4, as stated, fails on a signed value: with `data-delay="-5"` the delay
computed is `-5`, which is negative, and the callback writes the transition
delay `-5ms` although the delay is not greater than zero.  It also fails to
be an integer on a very long value: a run of 310 nines gives an infinite
delay, and the value assigned is `Infinityms`. -/
theorem negative_delay_written :
    delayOf (load true [negativeDelayCard]) 0 = JSNumber.finite true 5 ∧
    (∀ m, delayOf (load true [negativeDelayCard]) 0 ≠ JSNumber.finite false m) ∧
    (processEntry 0 (load true [negativeDelayCard]) { target := 0, isIntersecting := true }).log =
      [Effect.setTransitionDelay 0 "-5ms", Effect.classListAdd 0 "in", Effect.unobserve 0 0] ∧
    (processEntry 0 (load true [negativeDelayCard])
        { target := 0, isIntersecting := true }).transitionDelayOf 0 = some "-5ms" ∧
    delayOf (load true [longDelayCard]) 0 = JSNumber.infinity false ∧
    (processEntry 0 (load true [longDelayCard]) { target := 0, isIntersecting := true }).log =
      [Effect.setTransitionDelay 0 "Infinityms", Effect.classListAdd 0 "in",
       Effect.unobserve 0 0] := by
  have hd : delayOf (load true [negativeDelayCard]) 0 = JSNumber.finite true 5 := by decide
  refine ⟨hd, ?_, by decide, by decide, by decide, by decide⟩
  intro m hm
  rw [hd] at hm
  cases hm

end Home

